import Mathlib

/-!
Shallow embedding of the inklo realtime hub server (services/realtime, the
WebSocket server in the repository) and proofs about its whiteboard
undo/redo engine, pairing-token registry, envelope validation, and room
lifecycle.

Modelling conventions:
* JavaScript `Map` objects are modelled as association lists in insertion
  order (`alGet` / `alSet` / `alDelete`); `set` replaces in place, `delete`
  filters the key out, matching Map semantics on the duplicate-free lists
  the server constructs.
* JavaScript arrays used as stacks (`push` appends at the end, `pop` takes
  the last element) are modelled as Lean lists with the top at the end.
* JSON numbers that the server stores but never computes with (point
  coordinates, style width/opacity) are opaque to the server and carried as
  `Int`; wall-clock times (`Date.now()`, `expiresAt`) are `Int`
  milliseconds, matching the only arithmetic the server performs on them.
* `nanoid` results and `Date.now()` readings are oracle inputs threaded
  through the events that consume them.
* Sockets are assumed open (`safeSend`'s readyState guard always passes for
  connected clients); outbound messages' `requestId` echo fields are not
  modelled (no claim concerns them).
-/

namespace Inklo

/-- Client role, from the `role=mobile` query parameter. -/
inductive Role where
  | web
  | mobile
deriving DecidableEq, Repr

/-- A whiteboard point `{x, y, t}`; the server never inspects the values. -/
structure Point where
  x : Int
  y : Int
  t : Int
deriving DecidableEq, Repr

/-- Drawing tool of a stroke style. -/
inductive Tool where
  | pen
  | highlighter
  | eraser
deriving DecidableEq, Repr

/-- The `StrokeStyle` wire type: tool, color, relative width, opacity. -/
structure StrokeStyle where
  tool : Tool
  color : String
  width : Int
  opacity : Int
deriving DecidableEq, Repr

/-- The `StrokeMsg` wire payload of `wb.stroke.*` events. -/
structure StrokeMsg where
  strokeId : String
  style : StrokeStyle
  points : List Point
deriving DecidableEq, Repr

/-- The stored stroke, `StrokeMsg & { userId }`: the authoritative form kept
in a room, with the server-assigned author. -/
structure StoredStroke where
  strokeId : String
  style : StrokeStyle
  points : List Point
  userId : String
deriving DecidableEq, Repr

/-- A chat message as stored in the room buffer. -/
structure ChatMessage where
  id : String
  userId : String
  name : Option String
  text : String
  ts : Int
  clientId : Option String
deriving DecidableEq, Repr

/-- A `PairTokenInfo` record of the global token table. -/
structure PairTokenInfo where
  token : String
  roomId : String
  webUserId : String
  expiresAt : Int
deriving DecidableEq, Repr

/-- Association-list lookup, modelling `Map.get` (first match; the server
only builds duplicate-free lists). -/
def alGet {α : Type} : List (String × α) → String → Option α
  | [], _ => none
  | (k, v) :: t, key => if k = key then some v else alGet t key

/-- Association-list update, modelling `Map.set`: replace in place when the
key is present, append at the end otherwise. -/
def alSet {α : Type} : List (String × α) → String → α → List (String × α)
  | [], key, v => [(key, v)]
  | (k, w) :: t, key, v => if k = key then (key, v) :: t else (k, w) :: alSet t key v

/-- Association-list removal, modelling `Map.delete`. -/
def alDelete {α : Type} : List (String × α) → String → List (String × α)
  | [], _ => []
  | (k, v) :: t, key => if k = key then alDelete t key else (k, v) :: alDelete t key

theorem alGet_alSet_self {α : Type} (m : List (String × α)) (k : String) (v : α) :
    alGet (alSet m k v) k = some v := by
  induction m with
  | nil => simp [alSet, alGet]
  | cons e t ih =>
    obtain ⟨ek, ev⟩ := e
    by_cases h : ek = k
    · simp [alSet, alGet, h]
    · simp [alSet, alGet, h, ih]

theorem alGet_alSet_ne {α : Type} (m : List (String × α)) (k k' : String) (v : α)
    (h : k' ≠ k) : alGet (alSet m k v) k' = alGet m k' := by
  induction m with
  | nil => simp [alSet, alGet, Ne.symm h]
  | cons e t ih =>
    obtain ⟨ek, ev⟩ := e
    by_cases he : ek = k
    · subst he
      simp [alSet, alGet, Ne.symm h]
    · by_cases he' : ek = k'
      · simp [alSet, alGet, he, he', h]
      · simp [alSet, alGet, he, he', ih]

theorem alGet_alDelete_self {α : Type} (m : List (String × α)) (k : String) :
    alGet (alDelete m k) k = none := by
  induction m with
  | nil => simp [alDelete, alGet]
  | cons e t ih =>
    obtain ⟨ek, ev⟩ := e
    by_cases h : ek = k
    · simpa [alDelete, alGet, h] using ih
    · simpa [alDelete, alGet, h] using ih

theorem alGet_alDelete_ne {α : Type} (m : List (String × α)) (k k' : String)
    (h : k' ≠ k) : alGet (alDelete m k) k' = alGet m k' := by
  induction m with
  | nil => simp [alDelete, alGet]
  | cons e t ih =>
    obtain ⟨ek, ev⟩ := e
    by_cases he : ek = k
    · subst he
      simpa [alDelete, alGet, Ne.symm h] using ih
    · by_cases he' : ek = k'
      · simp [alDelete, alGet, he, he', h]
      · simp [alDelete, alGet, he, he', ih]

/-- A parsed JSON value (the result of `JSON.parse`; object fields are
duplicate-free after parsing). -/
inductive Json where
  | null
  | bool (b : Bool)
  | num (n : Int)
  | str (s : String)
  | arr (elems : List Json)
  | obj (fields : List (String × Json))
deriving Repr

/-- Object field access; `none` for non-objects and missing keys (JS
`undefined`, and also the short-circuit of `payload?.k` on `null`). -/
def getField : Json → String → Option Json
  | .obj fields, key => alGet fields key
  | _, _ => none

/-- A `Room`: id, connected clients (their userIds, in `Set` insertion
order), stroke map, per-user undo stacks (strokeIds), per-user redo stacks
(full strokes), chat buffer. -/
structure Room where
  roomId : String
  clients : List String
  strokes : List (String × StoredStroke)
  undo : List (String × List String)
  redo : List (String × List StoredStroke)
  chat : List ChatMessage
deriving DecidableEq, Repr

/-- The per-connection `ClientMeta` record. -/
structure ClientMeta where
  userId : String
  roomId : Option String
  role : Role
  pairedToUserId : Option String
deriving DecidableEq, Repr

/-- The whole process state: room registry, pair-token table, connected
clients, and the persisted per-room snapshots (`data/rooms/<roomId>.json`,
read synchronously by `loadRoomStrokes`; the model reads it, never writes —
no claim concerns the debounced `saveRoom`). -/
structure ServerState where
  rooms : List (String × Room)
  pairTokens : List (String × PairTokenInfo)
  clients : List ClientMeta
  disk : List (String × List StoredStroke)
deriving DecidableEq, Repr

/-- WebRTC signaling relay kinds. -/
inductive RtcKind where
  | offer
  | answer
  | ice
deriving DecidableEq, Repr

/-- Outbound message contents (payload fields the claims can observe). -/
inductive OutMsg where
  | hello (userId : String) (role : Role)
  | joinedRoom (roomId : String)
  | rtcPeers (roomId : String) (peers : List String)
  | rtcPeerJoined (roomId joinedUserId : String)
  | rtcPeerLeft (roomId leftUserId : String)
  | wbSnapshot (roomId : String) (strokes : List StoredStroke)
  | wbHistory (roomId actorUserId : String) (canUndo canRedo : Bool)
      (undoCount redoCount : Nat)
  | chatHistory (roomId actorUserId : String) (messages : List ChatMessage)
  | wbStrokeRemove (roomId actorUserId strokeId : String)
  | wbStrokeRestore (roomId actorUserId : String) (stroke : StoredStroke)
  | wbStrokeEvent (roomId actorUserId eventType : String) (m : StrokeMsg)
  | wbClearEvent (roomId actorUserId : String)
  | pairCreated (roomId actorUserId token : String) (expiresAt : Int)
  | pairError (roomId actorUserId message : String)
  | pairSuccess (roomId mobileUserId webUserId : String)
  | chatMessageOut (roomId actorUserId : String) (m : ChatMessage)
  | cursorEcho (roomId actorUserId : String) (payload : Json)
  | rtcRelayOut (kind : RtcKind) (roomId fromUserId : String) (payload : Json)
deriving Repr

/-- A unicast send: `safeSend` to the client with this userId. -/
inductive Output where
  | send (toUserId : String) (msg : OutMsg)
deriving Repr

/-- The `getUndoStack` / `getRedoStack` access: read the per-user stack, materialising
an empty entry in the map when absent (the source mutates the map). Returns
the updated map together with the stack read. -/
def getStack {α : Type} (m : List (String × List α)) (userId : String) :
    List (String × List α) × List α :=
  match alGet m userId with
  | some s => (m, s)
  | none => (m ++ [(userId, [])], [])

/-- The per-user stack as observed through `getUndoStack`-style access:
absent entries read as empty. -/
def stackView {α : Type} (m : List (String × List α)) (userId : String) : List α :=
  (alGet m userId).getD []

/-- A user's undo stack view in a room. -/
def undoView (room : Room) (userId : String) : List String :=
  stackView room.undo userId

/-- A user's redo stack view in a room. -/
def redoView (room : Room) (userId : String) : List StoredStroke :=
  stackView room.redo userId

/-- Fan-out of one message to every client in the room (`broadcast` without
an exclusion). -/
def broadcastRoom (room : Room) (msg : OutMsg) : List Output :=
  room.clients.map (fun u => Output.send u msg)

/-- Fan-out to every client in the room except one (`broadcast` with the
`except` socket). -/
def broadcastRoomExcept (room : Room) (exceptUserId : String) (msg : OutMsg) :
    List Output :=
  (room.clients.filter (fun u => u ≠ exceptUserId)).map (fun u => Output.send u msg)

/-- The `sendHistory` helper: unicast `wb.history` to the acting user, materialising
the user's stacks (the source's `getUndoStack` / `getRedoStack` calls). -/
def sendHistory (room : Room) (userId : String) : Room × List Output :=
  let u := getStack room.undo userId
  let r := getStack room.redo userId
  let room := { room with undo := u.1, redo := r.1 }
  (room,
   [Output.send userId (OutMsg.wbHistory room.roomId userId
      (decide (u.2.length > 0)) (decide (r.2.length > 0)) u.2.length r.2.length)])

/-- The `wb.undo` pop loop: `pop until we find a stroke that still exists
and belongs to user`. The input list carries the stack top-first (the
source pops from the array's end); returns the remaining top-first stack
and the matching entry, if any. -/
def undoLoop (strokes : List (String × StoredStroke)) (userId : String) :
    List String → List String × Option (String × StoredStroke)
  | [] => ([], none)
  | strokeId :: rest =>
    match alGet strokes strokeId with
    | none => undoLoop strokes userId rest
    | some s =>
      if s.userId = userId then (rest, some (strokeId, s))
      else undoLoop strokes userId rest

/-- The `wb.undo` branch, at room level (the caller is a client of the room
with this userId). -/
def handleWbUndo (room : Room) (userId : String) : Room × List Output :=
  let u := getStack room.undo userId
  let r := getStack room.redo userId
  let room := { room with undo := u.1, redo := r.1 }
  match undoLoop room.strokes userId u.2.reverse with
  | (restRev, some (strokeId, stroke)) =>
    let room := { room with
      strokes := alDelete room.strokes strokeId,
      undo := alSet room.undo userId restRev.reverse,
      redo := alSet room.redo userId (r.2 ++ [stroke]) }
    let outs := broadcastRoom room (OutMsg.wbStrokeRemove room.roomId userId strokeId)
    let h := sendHistory room userId
    (h.1, outs ++ h.2)
  | (_, none) =>
    ({ room with undo := alSet room.undo userId [] }, [])

/-- The `wb.redo` branch, at room level. -/
def handleWbRedo (room : Room) (userId : String) : Room × List Output :=
  let u := getStack room.undo userId
  let r := getStack room.redo userId
  let room := { room with undo := u.1, redo := r.1 }
  match r.2.getLast? with
  | none => (room, [])
  | some stroke =>
    let room := { room with
      redo := alSet room.redo userId r.2.dropLast,
      strokes := alSet room.strokes stroke.strokeId stroke,
      undo := alSet room.undo userId (u.2 ++ [stroke.strokeId]) }
    let outs := broadcastRoom room (OutMsg.wbStrokeRestore room.roomId userId stroke)
    let h := sendHistory room userId
    (h.1, outs ++ h.2)

/-- The `wb.clear` branch: empty the stroke map and both per-user stack
maps, fan out the clear, unicast history to the sender. -/
def handleWbClear (room : Room) (userId : String) : Room × List Output :=
  let room := { room with strokes := [], undo := [], redo := [] }
  let outs := broadcastRoom room (OutMsg.wbClearEvent room.roomId userId)
  let h := sendHistory room userId
  (h.1, outs ++ h.2)

/-- Stroke-event discriminator for `wb.stroke.start` / `.move` / `.end`. -/
inductive StrokeKind where
  | start
  | move
  | strokeEnd
deriving DecidableEq, Repr

/-- The wire `type` string of a stroke event. -/
def StrokeKind.typeName : StrokeKind → String
  | .start => "wb.stroke.start"
  | .move => "wb.stroke.move"
  | .strokeEnd => "wb.stroke.end"

/-- The `wb.stroke.start` / `.move` / `.end` branch, at room level. A
strokeId not yet in the map creates the stroke (with undo push and redo
clear only for `start`); an existing strokeId appends the payload's points
and replaces the style, for all three event kinds alike. -/
def handleStrokeEvent (room : Room) (userId : String) (kind : StrokeKind)
    (m : StrokeMsg) : Room × List Output :=
  match alGet room.strokes m.strokeId with
  | some existing =>
    let updated := { existing with points := existing.points ++ m.points, style := m.style }
    let room := { room with strokes := alSet room.strokes m.strokeId updated }
    (room, broadcastRoom room (OutMsg.wbStrokeEvent room.roomId userId kind.typeName m))
  | none =>
    let rh :=
      if kind = StrokeKind.start then
        let u := getStack room.undo userId
        let room := { room with undo := alSet u.1 userId (u.2 ++ [m.strokeId]) }
        let r := getStack room.redo userId
        let room := { room with redo := alSet r.1 userId [] }
        sendHistory room userId
      else (room, [])
    let created : StoredStroke := ⟨m.strokeId, m.style, m.points, userId⟩
    let room := { rh.1 with strokes := alSet rh.1.strokes m.strokeId created }
    (room, rh.2 ++ broadcastRoom room (OutMsg.wbStrokeEvent room.roomId userId kind.typeName m))

mutual

/-- JS `String(x)` coercion for the values the server funnels through
`String(payload?.k ?? "")`. -/
def jsToString : Json → String
  | .null => "null"
  | .bool b => cond b "true" "false"
  | .num n => toString n
  | .str s => s
  | .arr elems => jsToStringList elems
  | .obj _ => "[object Object]"

/-- JS array-to-string: elements joined with commas, null elements empty. -/
def jsToStringList : List Json → String
  | [] => ""
  | [Json.null] => ""
  | [x] => jsToString x
  | Json.null :: rest => "," ++ jsToStringList rest
  | x :: rest => jsToString x ++ "," ++ jsToStringList rest

end

/-- The read `String(payload?.key ?? "")`: missing field or `null` gives the empty
string, anything else is coerced. -/
def jsGetStringField (payload : Json) (key : String) : String :=
  match getField payload key with
  | none => ""
  | some Json.null => ""
  | some v => jsToString v

/-- A validated envelope, the successful result of
`EnvelopeSchema.safeParse` (`v` is checked to be the literal 1 and not
stored). A missing `payload` (accepted by `z.unknown()`) is carried as
`Json.null`, which behaves like `undefined` under every `payload?.k` read
the server performs. -/
structure Envelope where
  type : String
  requestId : Option String
  roomId : Option String
  userId : Option String
  payload : Json

/-- An optional string field per `z.string().optional()`: absent is fine,
present must be a string. -/
def parseOptString (j : Json) (key : String) : Option (Option String) :=
  match getField j key with
  | none => some none
  | some (Json.str s) => some (some s)
  | some _ => none

/-- The `EnvelopeSchema.safeParse` check: an object with `v` the literal 1, `type` a
string, optional string `requestId` / `roomId` / `userId`, and an arbitrary
`payload`. -/
def safeParseEnvelope (j : Json) : Option Envelope :=
  match j with
  | .obj _ =>
    match getField j "v" with
    | some (Json.num 1) =>
      match getField j "type" with
      | some (Json.str t) =>
        match parseOptString j "requestId", parseOptString j "roomId",
              parseOptString j "userId" with
        | some rq, some rm, some us =>
          some { type := t, requestId := rq, roomId := rm, userId := us,
                 payload := (getField j "payload").getD Json.null }
        | _, _, _ => none
      | _ => none
    | _ => none
  | _ => none

/-- The boolean shape test named by the spec's envelope discipline: a JSON
object with `v = 1` and a non-empty string `type`. -/
def envelopeShapeOk (j : Json) : Bool :=
  match j with
  | .obj _ =>
    (match getField j "v" with
     | some (Json.num 1) => true
     | _ => false)
    &&
    (match getField j "type" with
     | some (Json.str t) => !(t = "")
     | _ => false)
  | _ => false

/-- A decoded client message, dispatched by the envelope `type`. -/
inductive ClientMsg where
  | joinRoom (roomId : String)
  | rtcRelay (kind : RtcKind) (toUserId : String) (payload : Json)
  | wbUndo
  | wbRedo
  | wbSnapshotRequest
  | cursorMove (payload : Json)
  | pairCreate
  | pairClaim (pairToken : String)
  | strokeEvent (kind : StrokeKind) (m : StrokeMsg)
  | wbClear
  | chatHistoryRequest
  | chatMessage (text : String) (name : Option String) (clientId : Option String)
deriving Repr

/-- An execution event: a connection accept, a socket close, a reaper tick,
or an inbound (already decoded) client message. `now` is the `Date.now()`
reading and `freshId` the `nanoid` draw of the handlers that consume them. -/
inductive Event where
  | connect (userId : String) (role : Role)
  | disconnect (userId : String)
  | reap (now : Int)
  | msg (userId : String) (now : Int) (freshId : String) (m : ClientMsg)
deriving Repr

/-- Look up a connected client record by userId. -/
def getClient (st : ServerState) (userId : String) : Option ClientMeta :=
  st.clients.find? (fun c => c.userId = userId)

/-- Replace a client record (keyed by userId). -/
def updateClient (clients : List ClientMeta) (c : ClientMeta) : List ClientMeta :=
  clients.map (fun d => if d.userId = c.userId then c else d)

/-- Rebuild a stroke map from a persisted snapshot's stroke list: entries
with a falsy `strokeId` are skipped (`if (s?.strokeId)`). -/
def strokesFromDisk (l : List StoredStroke) : List (String × StoredStroke) :=
  l.foldl (fun m s => if s.strokeId ≠ "" then alSet m s.strokeId s else m) []

/-- The `getOrCreateRoom` operation: return the registered room, or build one whose
stroke map is bootstrapped from the persisted snapshot, with empty
undo/redo/chat. -/
def getOrCreateRoomS (st : ServerState) (roomId : String) : ServerState × Room :=
  match alGet st.rooms roomId with
  | some room => (st, room)
  | none =>
    let strokes := strokesFromDisk ((alGet st.disk roomId).getD [])
    let room : Room := ⟨roomId, [], strokes, [], [], []⟩
    ({ st with rooms := alSet st.rooms roomId room }, room)

/-- The `Set.add` of the clients set: append when absent. -/
def addClientToRoom (clients : List String) (userId : String) : List String :=
  if userId ∈ clients then clients else clients ++ [userId]

/-- The `listPeerUserIds` helper: every client of the room except the given user. -/
def listPeerUserIds (room : Room) (excludeUserId : String) : List String :=
  room.clients.filter (fun u => u ≠ excludeUserId)

/-- The `room.join` branch: leave (and possibly drop) the old room with a
peer-left broadcast, then register in the target room (creating it from the
persisted snapshot if unregistered) and deliver joined/peers/snapshot/
history/chat-history, broadcasting peer-joined to the others. -/
def handleJoin (st : ServerState) (client : ClientMeta) (roomIdRaw : String) :
    ServerState × List Output :=
  if roomIdRaw = "" then (st, [])
  else
    let userId := client.userId
    let leave :
        ServerState × List Output :=
      match client.roomId with
      | none => (st, [])
      | some oldId =>
        match alGet st.rooms oldId with
        | none => (st, [])
        | some oldRoom =>
          let oldRoom := { oldRoom with
            clients := oldRoom.clients.filter (fun u => u ≠ userId) }
          let st := { st with rooms := alSet st.rooms oldId oldRoom }
          let outs := broadcastRoom oldRoom (OutMsg.rtcPeerLeft oldId userId)
          let st :=
            if oldRoom.clients.isEmpty then { st with rooms := alDelete st.rooms oldId }
            else st
          (st, outs)
    let st := leave.1
    let client := { client with roomId := some roomIdRaw }
    let st := { st with clients := updateClient st.clients client }
    let gr := getOrCreateRoomS st roomIdRaw
    let st := gr.1
    let room := { gr.2 with clients := addClientToRoom gr.2.clients userId }
    let joinOuts :=
      [Output.send userId (OutMsg.joinedRoom roomIdRaw),
       Output.send userId (OutMsg.rtcPeers roomIdRaw (listPeerUserIds room userId))]
      ++ broadcastRoomExcept room userId (OutMsg.rtcPeerJoined roomIdRaw userId)
      ++ [Output.send userId (OutMsg.wbSnapshot roomIdRaw (room.strokes.map Prod.snd))]
    let h := sendHistory room userId
    let room := h.1
    let chatOut := [Output.send userId
      (OutMsg.chatHistory roomIdRaw userId (room.chat.drop (room.chat.length - 100)))]
    let st := { st with rooms := alSet st.rooms roomIdRaw room }
    (st, leave.2 ++ joinOuts ++ h.2 ++ chatOut)

/-- The `pair.create` branch (web-role only, caller in `roomId`): mint the
token (the `nanoid(16)` draw), record it with `expiresAt = now + 120000`,
unicast `pair.created`. -/
def handlePairCreate (st : ServerState) (client : ClientMeta) (roomId : String)
    (now : Int) (freshToken : String) : ServerState × List Output :=
  if client.role ≠ Role.web then (st, [])
  else
    let expiresAt := now + 2 * 60 * 1000
    let info : PairTokenInfo := ⟨freshToken, roomId, client.userId, expiresAt⟩
    ({ st with pairTokens := alSet st.pairTokens freshToken info },
     [Output.send client.userId
        (OutMsg.pairCreated roomId client.userId freshToken expiresAt)])

/-- The `pair.claim` branch (mobile-role only, caller in `roomId`): unknown
token or cross-room token yield `pair.error`; otherwise set the caller's
`pairedToUserId`, delete the token, and unicast `pair.success` to the
mobile and to every web client of the room whose userId is the token's
`webUserId`. The branch performs no `expiresAt` comparison. -/
def handlePairClaim (st : ServerState) (client : ClientMeta) (roomId : String)
    (pairToken : String) : ServerState × List Output :=
  if client.role ≠ Role.mobile then (st, [])
  else
    match alGet st.pairTokens pairToken with
    | none =>
      (st, [Output.send client.userId
        (OutMsg.pairError roomId client.userId "Invalid or expired token")])
    | some info =>
      if info.roomId ≠ roomId then
        (st, [Output.send client.userId
          (OutMsg.pairError roomId client.userId "Token is for a different room")])
      else
        let client := { client with pairedToUserId := some info.webUserId }
        let st := { st with
          clients := updateClient st.clients client,
          pairTokens := alDelete st.pairTokens pairToken }
        let successMsg := OutMsg.pairSuccess roomId client.userId info.webUserId
        let webOuts :=
          match alGet st.rooms roomId with
          | none => []
          | some room =>
            (room.clients.filter (fun u =>
                match getClient st u with
                | some c => c.role = Role.web ∧ c.userId = info.webUserId
                | none => False)).map
              (fun u => Output.send u successMsg)
        (st, Output.send client.userId successMsg :: webOuts)

/-- The reaper `cleanupExpiredTokens`: delete every token with `expiresAt <= now`. -/
def cleanupExpiredTokens (tokens : List (String × PairTokenInfo)) (now : Int) :
    List (String × PairTokenInfo) :=
  tokens.filter (fun e => ¬ e.2.expiresAt ≤ now)

/-- Run a room-level handler against the registered room (drop when the
registry misses it) and write the updated room back. -/
def withRoom (st : ServerState) (roomId : String)
    (f : Room → Room × List Output) : ServerState × List Output :=
  match alGet st.rooms roomId with
  | none => (st, [])
  | some room =>
    let r := f room
    ({ st with rooms := alSet st.rooms roomId r.1 }, r.2)

/-- Dispatch of one decoded client message, the in-room part of the
`socket.on("message")` handler: everything but `room.join` requires the
client's current roomId. -/
def stepMsg (st : ServerState) (userId : String) (now : Int) (freshId : String)
    (cm : ClientMsg) : ServerState × List Output :=
  match getClient st userId with
  | none => (st, [])
  | some client =>
    match cm with
    | .joinRoom roomIdRaw => handleJoin st client roomIdRaw
    | _ =>
      match client.roomId with
      | none => (st, [])
      | some roomId =>
        match cm with
        | .joinRoom _ => (st, [])
        | .rtcRelay kind toUserId payload =>
          match alGet st.rooms roomId with
          | none => (st, [])
          | some room =>
            if toUserId = "" then (st, [])
            else if toUserId ∈ room.clients then
              (st, [Output.send toUserId (OutMsg.rtcRelayOut kind roomId userId payload)])
            else (st, [])
        | .wbUndo => withRoom st roomId (fun room => handleWbUndo room userId)
        | .wbRedo => withRoom st roomId (fun room => handleWbRedo room userId)
        | .wbSnapshotRequest =>
          match alGet st.rooms roomId with
          | none => (st, [])
          | some room =>
            (st, [Output.send userId
              (OutMsg.wbSnapshot roomId (room.strokes.map Prod.snd))])
        | .cursorMove payload =>
          match alGet st.rooms roomId with
          | none => (st, [])
          | some room =>
            (st, broadcastRoomExcept room userId (OutMsg.cursorEcho roomId userId payload))
        | .pairCreate => handlePairCreate st client roomId now freshId
        | .pairClaim tok => handlePairClaim st client roomId tok
        | .strokeEvent kind m =>
          withRoom st roomId (fun room => handleStrokeEvent room userId kind m)
        | .wbClear => withRoom st roomId (fun room => handleWbClear room userId)
        | .chatHistoryRequest =>
          match alGet st.rooms roomId with
          | none => (st, [])
          | some room =>
            (st, [Output.send userId (OutMsg.chatHistory roomId userId
              (room.chat.drop (room.chat.length - 100)))])
        | .chatMessage textRaw name clientId =>
          withRoom st roomId (fun room =>
            let text := textRaw.trim
            if text = "" then (room, [])
            else
              let m : ChatMessage := ⟨freshId, userId, name, text, now, clientId⟩
              let chat := room.chat ++ [m]
              let chat := chat.drop (chat.length - 200)
              let room := { room with chat := chat }
              (room, broadcastRoom room (OutMsg.chatMessageOut roomId userId m)))

/-- One execution step: connection accept (mint the userId, unicast
`hello`), socket close (leave the room with a peer-left broadcast, drop the
room when empty), reaper tick, or an inbound client message. -/
def step (st : ServerState) (e : Event) : ServerState × List Output :=
  match e with
  | .connect userId role =>
    ({ st with clients := st.clients ++ [⟨userId, none, role, none⟩] },
     [Output.send userId (OutMsg.hello userId role)])
  | .disconnect userId =>
    match getClient st userId with
    | none => (st, [])
    | some client =>
      let st := { st with clients := st.clients.filter (fun c => c.userId ≠ userId) }
      match client.roomId with
      | none => (st, [])
      | some roomId =>
        match alGet st.rooms roomId with
        | none => (st, [])
        | some room =>
          let room := { room with clients := room.clients.filter (fun u => u ≠ userId) }
          let st := { st with rooms := alSet st.rooms roomId room }
          let outs := broadcastRoom room (OutMsg.rtcPeerLeft roomId userId)
          let st :=
            if room.clients.isEmpty then { st with rooms := alDelete st.rooms roomId }
            else st
          (st, outs)
  | .reap now => ({ st with pairTokens := cleanupExpiredTokens st.pairTokens now }, [])
  | .msg userId now freshId cm => stepMsg st userId now freshId cm

/-- Decode a `StrokeMsg` payload. The source casts `payload as StrokeMsg`
without validation (the shared package's types guarantee the shape for
conforming clients); a non-conforming payload is modelled as a drop. -/
def decodePoint (j : Json) : Option Point :=
  match getField j "x", getField j "y", getField j "t" with
  | some (Json.num x), some (Json.num y), some (Json.num t) => some ⟨x, y, t⟩
  | _, _, _ => none

/-- Decode the `tool` field of a style. -/
def decodeTool : Json → Option Tool
  | .str "pen" => some Tool.pen
  | .str "highlighter" => some Tool.highlighter
  | .str "eraser" => some Tool.eraser
  | _ => none

/-- Decode a `StrokeStyle` payload field. -/
def decodeStyle (j : Json) : Option StrokeStyle :=
  match getField j "tool", getField j "color", getField j "width",
        getField j "opacity" with
  | some tj, some (Json.str color), some (Json.num width), some (Json.num opacity) =>
    (decodeTool tj).map (fun tool => ⟨tool, color, width, opacity⟩)
  | _, _, _, _ => none

/-- Decode the full `{strokeId, style, points}` payload. -/
def decodeStrokeMsg (j : Json) : Option StrokeMsg :=
  match getField j "strokeId", getField j "style", getField j "points" with
  | some (Json.str sid), some styleJson, some (Json.arr pts) =>
    match decodeStyle styleJson, pts.mapM decodePoint with
    | some style, some points => some ⟨sid, style, points⟩
    | _, _ => none
  | _, _, _ => none

/-- Decode an optional-string chat field (`typeof x === "string" ? x :
undefined`). -/
def decodeChatOptString (payload : Json) (key : String) : Option String :=
  match getField payload key with
  | some (Json.str s) => some s
  | _ => none

/-- Dispatch a schema-valid envelope by its `type` string (the if-chain of
the message handler); unknown types fall off the chain and are dropped. -/
def dispatchEnvelope (st : ServerState) (userId : String) (now : Int)
    (freshId : String) (env : Envelope) : ServerState × List Output :=
  if env.type = "room.join" then
    stepMsg st userId now freshId (ClientMsg.joinRoom (jsGetStringField env.payload "roomId"))
  else if env.type = "rtc.offer" then
    stepMsg st userId now freshId
      (ClientMsg.rtcRelay RtcKind.offer (jsGetStringField env.payload "toUserId") env.payload)
  else if env.type = "rtc.answer" then
    stepMsg st userId now freshId
      (ClientMsg.rtcRelay RtcKind.answer (jsGetStringField env.payload "toUserId") env.payload)
  else if env.type = "rtc.ice" then
    stepMsg st userId now freshId
      (ClientMsg.rtcRelay RtcKind.ice (jsGetStringField env.payload "toUserId") env.payload)
  else if env.type = "wb.undo" then
    stepMsg st userId now freshId ClientMsg.wbUndo
  else if env.type = "wb.redo" then
    stepMsg st userId now freshId ClientMsg.wbRedo
  else if env.type = "wb.snapshot.request" then
    stepMsg st userId now freshId ClientMsg.wbSnapshotRequest
  else if env.type = "cursor.move" then
    stepMsg st userId now freshId (ClientMsg.cursorMove env.payload)
  else if env.type = "pair.create" then
    stepMsg st userId now freshId ClientMsg.pairCreate
  else if env.type = "pair.claim" then
    stepMsg st userId now freshId
      (ClientMsg.pairClaim (jsGetStringField env.payload "pairToken"))
  else if env.type = "wb.stroke.start" then
    match decodeStrokeMsg env.payload with
    | some m => stepMsg st userId now freshId (ClientMsg.strokeEvent StrokeKind.start m)
    | none => (st, [])
  else if env.type = "wb.stroke.move" then
    match decodeStrokeMsg env.payload with
    | some m => stepMsg st userId now freshId (ClientMsg.strokeEvent StrokeKind.move m)
    | none => (st, [])
  else if env.type = "wb.stroke.end" then
    match decodeStrokeMsg env.payload with
    | some m => stepMsg st userId now freshId (ClientMsg.strokeEvent StrokeKind.strokeEnd m)
    | none => (st, [])
  else if env.type = "wb.clear" then
    stepMsg st userId now freshId ClientMsg.wbClear
  else if env.type = "chat.history.request" then
    stepMsg st userId now freshId ClientMsg.chatHistoryRequest
  else if env.type = "chat.message" then
    stepMsg st userId now freshId
      (ClientMsg.chatMessage (jsGetStringField env.payload "text")
        (decodeChatOptString env.payload "name")
        (decodeChatOptString env.payload "clientId"))
  else (st, [])

/-- The whole `socket.on("message")` handler for one inbound frame:
`JSON.parse` failure (`none`) is a silent drop, `EnvelopeSchema.safeParse`
failure is a silent drop, and a valid envelope is dispatched by type. -/
def handleFrame (st : ServerState) (userId : String) (now : Int)
    (freshId : String) (frame : Option Json) : ServerState × List Output :=
  match frame with
  | none => (st, [])
  | some j =>
    match safeParseEnvelope j with
    | none => (st, [])
    | some env => dispatchEnvelope st userId now freshId env

/-- Run a trace of events, discarding outputs. -/
def runTrace (st : ServerState) : List Event → ServerState
  | [] => st
  | e :: tr => runTrace (step st e).1 tr

/-- The success condition of a `pair.claim`: the caller is a connected
mobile-role client with a current room equal to the token's room, and the
token is in the table. -/
def claimOk (st : ServerState) (userId : String) (tok : String) : Bool :=
  match getClient st userId with
  | none => false
  | some c =>
    c.role = Role.mobile &&
    match c.roomId with
    | none => false
    | some r =>
      match alGet st.pairTokens tok with
      | none => false
      | some info => info.roomId = r

/-- Whether an event is a successful claim of the given token string. -/
def isClaimSuccess (st : ServerState) (e : Event) (tok : String) : Bool :=
  match e with
  | .msg userId _ _ (ClientMsg.pairClaim t) => t = tok && claimOk st userId tok
  | _ => false

/-- How many `pair.success` emissions reference the token along a trace. -/
def successesFor (st : ServerState) (tr : List Event) (tok : String) : Nat :=
  match tr with
  | [] => 0
  | e :: tr =>
    (if isClaimSuccess st e tok then 1 else 0) + successesFor (step st e).1 tr tok

/-- How many events of a trace mint the given token string via
`pair.create` (the `nanoid(16)` oracle draw). -/
def createsFor (tr : List Event) (tok : String) : Nat :=
  match tr with
  | [] => 0
  | Event.msg _ _ freshId ClientMsg.pairCreate :: tr =>
    (if freshId = tok then 1 else 0) + createsFor tr tok
  | _ :: tr => createsFor tr tok

/-- 1 when the token string is in the table, else 0. -/
def tokInd (st : ServerState) (tok : String) : Nat :=
  if (alGet st.pairTokens tok).isSome then 1 else 0

/-- Whether the stroke map holds this strokeId with this author. -/
def ownedBy (strokes : List (String × StoredStroke)) (userId strokeId : String) : Bool :=
  match alGet strokes strokeId with
  | some s => s.userId = userId
  | none => false

theorem getStack_of_some {α : Type} {m : List (String × List α)} {k : String}
    {s : List α} (h : alGet m k = some s) : getStack m k = (m, s) := by
  simp [getStack, h]

theorem getStack_of_none {α : Type} {m : List (String × List α)} {k : String}
    (h : alGet m k = none) : getStack m k = (m ++ [(k, [])], []) := by
  simp [getStack, h]

theorem alGet_append_single {α : Type} (m : List (String × α)) (k k' : String)
    (v : α) : alGet (m ++ [(k, v)]) k' =
      ((alGet m k').orElse (fun _ => if k = k' then some v else none)) := by
  induction m with
  | nil => simp [alGet]
  | cons e t ih =>
    obtain ⟨ek, ev⟩ := e
    by_cases he : ek = k'
    · simp [alGet, he]
    · simp [alGet, he, ih]

theorem getStack_snd {α : Type} (m : List (String × List α)) (k : String) :
    (getStack m k).2 = stackView m k := by
  cases h : alGet m k with
  | none => simp [getStack, stackView, h]
  | some s => simp [getStack, stackView, h]

theorem stackView_getStack_fst {α : Type} (m : List (String × List α))
    (k k' : String) : stackView (getStack m k).1 k' = stackView m k' := by
  cases h : alGet m k with
  | some s => simp [getStack, h]
  | none =>
    by_cases he : k = k'
    · subst he
      simp [getStack, h, stackView, alGet_append_single]
    · simp [getStack, h, stackView, alGet_append_single, he]

theorem alGet_getStack_fst_self {α : Type} (m : List (String × List α))
    (k : String) : alGet (getStack m k).1 k = some (stackView m k) := by
  cases h : alGet m k with
  | some s => simp [getStack, h, stackView]
  | none => simp [getStack, h, stackView, alGet_append_single]

theorem sendHistory_fst_of_present {room : Room} {userId : String}
    {a : List String} {b : List StoredStroke}
    (hu : alGet room.undo userId = some a) (hr : alGet room.redo userId = some b) :
    (sendHistory room userId).1 = room := by
  simp [sendHistory, getStack_of_some hu, getStack_of_some hr]

theorem sendHistory_chat (room : Room) (userId : String) :
    (sendHistory room userId).1.chat = room.chat := by
  simp [sendHistory]

theorem undoLoop_none_spec (strokes : List (String × StoredStroke))
    (userId : String) :
    ∀ l rest, undoLoop strokes userId l = (rest, none) →
      rest = [] ∧ ∀ x ∈ l, ownedBy strokes userId x = false := by
  intro l
  induction l with
  | nil =>
    intro rest h
    simp [undoLoop] at h
    exact ⟨h, by simp⟩
  | cons x t ih =>
    intro rest h
    cases hx : alGet strokes x with
    | none =>
      have := ih rest (by simpa [undoLoop, hx] using h)
      exact ⟨this.1, by
        intro y hy
        rcases List.mem_cons.mp hy with hy | hy
        · simp [ownedBy, hy, hx]
        · exact this.2 y hy⟩
    | some s =>
      by_cases hs : s.userId = userId
      · exfalso
        simp [undoLoop, hx, hs] at h
      · have := ih rest (by simpa [undoLoop, hx, hs] using h)
        exact ⟨this.1, by
          intro y hy
          rcases List.mem_cons.mp hy with hy | hy
          · simp [ownedBy, hy, hx, hs]
          · exact this.2 y hy⟩

theorem undoLoop_some_spec (strokes : List (String × StoredStroke))
    (userId : String) :
    ∀ l rest sid s, undoLoop strokes userId l = (rest, some (sid, s)) →
      alGet strokes sid = some s ∧ s.userId = userId ∧
      ∃ dropped, l = dropped ++ sid :: rest ∧
        ∀ x ∈ dropped, ownedBy strokes userId x = false := by
  intro l
  induction l with
  | nil =>
    intro rest sid s h
    simp [undoLoop] at h
  | cons x t ih =>
    intro rest sid s h
    cases hx : alGet strokes x with
    | none =>
      obtain ⟨h1, h2, dropped, h3, h4⟩ := ih rest sid s (by simpa [undoLoop, hx] using h)
      refine ⟨h1, h2, x :: dropped, by simp [h3], ?_⟩
      intro y hy
      rcases List.mem_cons.mp hy with hy | hy
      · simp [ownedBy, hy, hx]
      · exact h4 y hy
    | some s' =>
      by_cases hs : s'.userId = userId
      · simp [undoLoop, hx, hs, Prod.ext_iff] at h
        obtain ⟨ht, hsid, hss⟩ := h
        subst ht
        subst hsid
        subst hss
        exact ⟨hx, hs, [], by simp, by simp⟩
      · obtain ⟨h1, h2, dropped, h3, h4⟩ := ih rest sid s (by simpa [undoLoop, hx, hs] using h)
        refine ⟨h1, h2, x :: dropped, by simp [h3], ?_⟩
        intro y hy
        rcases List.mem_cons.mp hy with hy | hy
        · simp [ownedBy, hy, hx, hs]
        · exact h4 y hy

theorem sendHistory_strokes (room : Room) (userId : String) :
    (sendHistory room userId).1.strokes = room.strokes := by
  simp [sendHistory]

theorem sendHistory_undoView (room : Room) (userId u : String) :
    undoView (sendHistory room userId).1 u = undoView room u := by
  simp [sendHistory, undoView, stackView_getStack_fst]

theorem sendHistory_redoView (room : Room) (userId u : String) :
    redoView (sendHistory room userId).1 u = redoView room u := by
  simp [sendHistory, redoView, stackView_getStack_fst]

theorem sendHistory_fst_undo (room : Room) (userId : String) :
    (sendHistory room userId).1.undo = (getStack room.undo userId).1 := by
  simp [sendHistory]

theorem sendHistory_fst_redo (room : Room) (userId : String) :
    (sendHistory room userId).1.redo = (getStack room.redo userId).1 := by
  simp [sendHistory]

theorem handleWbUndo_some_fields {room : Room} {userId : String}
    {restRev : List String} {sid : String} {s : StoredStroke}
    (h : undoLoop room.strokes userId (undoView room userId).reverse =
      (restRev, some (sid, s))) :
    (handleWbUndo room userId).1.strokes = alDelete room.strokes sid
    ∧ undoView (handleWbUndo room userId).1 userId = restRev.reverse
    ∧ redoView (handleWbUndo room userId).1 userId = redoView room userId ++ [s] := by
  have hsnd : (getStack room.undo userId).2 = undoView room userId :=
    getStack_snd _ _
  have hrsnd : (getStack room.redo userId).2 = redoView room userId :=
    getStack_snd _ _
  simp only [handleWbUndo, hsnd, hrsnd, h]
  refine ⟨?_, ?_, ?_⟩
  · simp [sendHistory_strokes]
  · simp [undoView, stackView, sendHistory_fst_undo, alGet_getStack_fst_self,
      alGet_alSet_self]
  · simp [redoView, stackView, sendHistory_fst_redo, alGet_getStack_fst_self,
      alGet_alSet_self]

theorem handleWbUndo_none_fields {room : Room} {userId : String}
    {restRev : List String}
    (h : undoLoop room.strokes userId (undoView room userId).reverse =
      (restRev, none)) :
    (handleWbUndo room userId).1.strokes = room.strokes
    ∧ undoView (handleWbUndo room userId).1 userId = []
    ∧ (∀ u, redoView (handleWbUndo room userId).1 u = redoView room u)
    ∧ (handleWbUndo room userId).2 = [] := by
  have hsnd : (getStack room.undo userId).2 = undoView room userId :=
    getStack_snd _ _
  simp only [handleWbUndo, hsnd, h]
  refine ⟨trivial, ?_, ?_, trivial⟩
  · simp [undoView, stackView, alGet_alSet_self]
  · intro u
    have hv := stackView_getStack_fst room.redo userId u
    simpa [redoView, stackView] using hv

/-- Shared pen style for concrete fixtures. -/
def penStyle : StrokeStyle := ⟨Tool.pen, "#000000", 4, 1⟩

/-- C1 counterexample fixture: a stroke authored by `V` whose id sits on
`U`'s undo stack. -/
def strokeC1 : StoredStroke := ⟨"s1", penStyle, [⟨1, 2, 3⟩], "V"⟩

/-- C1 counterexample fixture room. -/
def roomC1 : Room := ⟨"r1", ["U", "V"], [("s1", strokeC1)], [("U", ["s1"])], [], []⟩

/-- C1 (counterexample): at `roomC1`, a `wb.undo` from `U` drains the undo
stack without a match (the only entry is authored by `V`), yet the room
state is changed — `U`'s undo stack went from `["s1"]` to `[]` — refuting
the claim's final clause that the room state is unchanged in this case. -/
theorem C1_counterexample :
    (undoLoop roomC1.strokes "U" (undoView roomC1 "U").reverse).2 = none
    ∧ undoView roomC1 "U" = ["s1"]
    ∧ undoView (handleWbUndo roomC1 "U").1 "U" = []
    ∧ (handleWbUndo roomC1 "U").1 ≠ roomC1 := by
  decide

/-- C1 (amended): a `wb.undo` from `U` pops `U`'s undo stack, discarding
popped strokeIds whose stroke is absent or not authored by `U`, until one
is present and authored by `U`; only that stroke is removed (its full value
pushed onto `U`'s redo stack), a stroke authored by anyone else is never
removed; if the stack empties without a match, the stroke map and every
user's redo stack are unchanged and nothing is sent — but the discarded
entries remain popped, leaving `U`'s undo stack empty. -/
theorem C1_undo_ownership_and_discard (room : Room) (userId : String) :
    (∀ sid s, alGet room.strokes sid = some s → s.userId ≠ userId →
      alGet (handleWbUndo room userId).1.strokes sid = some s)
    ∧ (∀ restRev sid s,
        undoLoop room.strokes userId (undoView room userId).reverse =
          (restRev, some (sid, s)) →
        alGet room.strokes sid = some s ∧ s.userId = userId
        ∧ (handleWbUndo room userId).1.strokes = alDelete room.strokes sid
        ∧ undoView (handleWbUndo room userId).1 userId = restRev.reverse
        ∧ redoView (handleWbUndo room userId).1 userId = redoView room userId ++ [s]
        ∧ ∃ dropped, (undoView room userId).reverse = dropped ++ sid :: restRev
            ∧ ∀ x ∈ dropped, ownedBy room.strokes userId x = false)
    ∧ (∀ restRev,
        undoLoop room.strokes userId (undoView room userId).reverse =
          (restRev, none) →
        (handleWbUndo room userId).1.strokes = room.strokes
        ∧ undoView (handleWbUndo room userId).1 userId = []
        ∧ (∀ u, redoView (handleWbUndo room userId).1 u = redoView room u)
        ∧ (handleWbUndo room userId).2 = []
        ∧ ∀ x ∈ undoView room userId, ownedBy room.strokes userId x = false) := by
  refine ⟨?_, ?_, ?_⟩
  · intro sid s hs hne
    rcases hcase : undoLoop room.strokes userId (undoView room userId).reverse
      with ⟨restRev, opt⟩
    cases opt with
    | none =>
      rw [(handleWbUndo_none_fields hcase).1]
      exact hs
    | some p =>
      obtain ⟨sid', s'⟩ := p
      obtain ⟨hget, hown, -⟩ := undoLoop_some_spec _ _ _ _ _ _ hcase
      have hne' : sid ≠ sid' := by
        intro hEq
        subst hEq
        rw [hs] at hget
        injection hget with hss
        exact hne (hss ▸ hown)
      rw [(handleWbUndo_some_fields hcase).1, alGet_alDelete_ne _ _ _ hne']
      exact hs
  · intro restRev sid s h
    obtain ⟨hget, hown, dropped, hsplit, hdrop⟩ := undoLoop_some_spec _ _ _ _ _ _ h
    obtain ⟨h1, h2, h3⟩ := handleWbUndo_some_fields h
    exact ⟨hget, hown, h1, h2, h3, dropped, hsplit, hdrop⟩
  · intro restRev h
    obtain ⟨-, hall⟩ := undoLoop_none_spec _ _ _ _ h
    obtain ⟨h1, h2, h3, h4⟩ := handleWbUndo_none_fields h
    refine ⟨h1, h2, h3, h4, ?_⟩
    intro x hx
    exact hall x (List.mem_reverse.mpr hx)

/-- C1 witness fixture: a stroke authored by `U` beneath a stale entry. -/
def strokeC1w : StoredStroke := ⟨"s1", penStyle, [⟨1, 2, 3⟩], "U"⟩

/-- C1 witness fixture room: the live id `s1` on top of `U`'s stack, a
stale id `z` below it. -/
def roomC1w : Room := ⟨"r1", ["U"], [("s1", strokeC1w)], [("U", ["z", "s1"])], [], []⟩

/-- C1 witness: the amended theorem applied at `roomC1w`. -/
theorem C1_witness :
    undoLoop roomC1w.strokes "U" (undoView roomC1w "U").reverse =
      (["z"], some ("s1", strokeC1w))
    ∧ (alGet roomC1w.strokes "s1" = some strokeC1w ∧ strokeC1w.userId = "U"
      ∧ (handleWbUndo roomC1w "U").1.strokes = alDelete roomC1w.strokes "s1"
      ∧ undoView (handleWbUndo roomC1w "U").1 "U" = List.reverse ["z"]
      ∧ redoView (handleWbUndo roomC1w "U").1 "U" = redoView roomC1w "U" ++ [strokeC1w]
      ∧ ∃ dropped, (undoView roomC1w "U").reverse = dropped ++ "s1" :: ["z"]
          ∧ ∀ x ∈ dropped, ownedBy roomC1w.strokes "U" x = false) :=
  ⟨by decide,
   (C1_undo_ownership_and_discard roomC1w "U").2.1 ["z"] "s1" strokeC1w (by decide)⟩

theorem handleStrokeStart_new {room : Room} {userId : String} {m : StrokeMsg}
    (h : alGet room.strokes m.strokeId = none) :
    (handleStrokeEvent room userId StrokeKind.start m).1.strokes =
      alSet room.strokes m.strokeId ⟨m.strokeId, m.style, m.points, userId⟩
    ∧ undoView (handleStrokeEvent room userId StrokeKind.start m).1 userId =
      undoView room userId ++ [m.strokeId]
    ∧ redoView (handleStrokeEvent room userId StrokeKind.start m).1 userId = [] := by
  have hu : (getStack room.undo userId).2 = undoView room userId := getStack_snd _ _
  simp only [handleStrokeEvent, h]
  refine ⟨?_, ?_, ?_⟩
  · simp [sendHistory_strokes]
  · simp [hu, undoView, stackView, sendHistory_fst_undo, alGet_getStack_fst_self,
      alGet_alSet_self]
  · simp [redoView, stackView, sendHistory_fst_redo, alGet_getStack_fst_self,
      alGet_alSet_self]

theorem handleWbRedo_pop {room : Room} {userId : String} {stroke : StoredStroke}
    (h : (redoView room userId).getLast? = some stroke) :
    alGet (handleWbRedo room userId).1.strokes stroke.strokeId = some stroke
    ∧ undoView (handleWbRedo room userId).1 userId =
      undoView room userId ++ [stroke.strokeId]
    ∧ redoView (handleWbRedo room userId).1 userId = (redoView room userId).dropLast := by
  have hu : (getStack room.undo userId).2 = undoView room userId := getStack_snd _ _
  have hr : (getStack room.redo userId).2 = redoView room userId := getStack_snd _ _
  simp only [handleWbRedo, hu, hr, h]
  refine ⟨?_, ?_, ?_⟩
  · simp [sendHistory_strokes, alGet_alSet_self]
  · simp [undoView, stackView, sendHistory_fst_undo, alGet_getStack_fst_self,
      alGet_alSet_self]
  · simp [redoView, stackView, sendHistory_fst_redo, alGet_getStack_fst_self,
      alGet_alSet_self]

/-- C2: for a strokeId not previously present, stroke-start by `U`, then
`wb.undo` by `U`, then `wb.redo` by `U` restores exactly the removed stroke
(same points, style and author), leaves the strokeId on `U`'s undo stack,
and leaves `U`'s redo stack empty. -/
theorem C2_undo_redo_roundtrip (room : Room) (userId : String) (m : StrokeMsg)
    (habs : alGet room.strokes m.strokeId = none) :
    alGet (handleStrokeEvent room userId StrokeKind.start m).1.strokes m.strokeId =
      some ⟨m.strokeId, m.style, m.points, userId⟩
    ∧ alGet (handleWbUndo (handleStrokeEvent room userId StrokeKind.start m).1
        userId).1.strokes m.strokeId = none
    ∧ alGet (handleWbRedo (handleWbUndo
          (handleStrokeEvent room userId StrokeKind.start m).1 userId).1
        userId).1.strokes m.strokeId =
      some ⟨m.strokeId, m.style, m.points, userId⟩
    ∧ m.strokeId ∈ undoView (handleWbRedo (handleWbUndo
          (handleStrokeEvent room userId StrokeKind.start m).1 userId).1
        userId).1 userId
    ∧ redoView (handleWbRedo (handleWbUndo
          (handleStrokeEvent room userId StrokeKind.start m).1 userId).1
        userId).1 userId = [] := by
  obtain ⟨hs1, hu1, hr1⟩ := handleStrokeStart_new habs
  set s : StoredStroke := ⟨m.strokeId, m.style, m.points, userId⟩ with hsdef
  set r1 := (handleStrokeEvent room userId StrokeKind.start m).1 with hr1def
  have hget1 : alGet r1.strokes m.strokeId = some s := by
    rw [hs1]; exact alGet_alSet_self _ _ _
  have hloop : undoLoop r1.strokes userId (undoView r1 userId).reverse =
      ((undoView room userId).reverse, some (m.strokeId, s)) := by
    rw [hu1]
    simp [undoLoop, hget1]
  obtain ⟨hs2, hu2, hr2⟩ := handleWbUndo_some_fields hloop
  set r2 := (handleWbUndo r1 userId).1 with hr2def
  have hget2 : alGet r2.strokes m.strokeId = none := by
    rw [hs2]; exact alGet_alDelete_self _ _
  have hlast : (redoView r2 userId).getLast? = some s := by
    rw [hr2, hr1]
    simp
  obtain ⟨hs3, hu3, hr3⟩ := handleWbRedo_pop hlast
  refine ⟨hget1, hget2, hs3, ?_, ?_⟩
  · rw [hu3]
    simp
  · rw [hr3, hr2, hr1]
    simp

/-- C2 witness fixture room: one unrelated stroke and a stale undo entry. -/
def roomC2 : Room :=
  ⟨"r1", ["U"], [("z", ⟨"z", penStyle, [], "V"⟩)], [("U", ["z"])], [], []⟩

/-- C2 witness fixture payload. -/
def msgC2 : StrokeMsg := ⟨"s1", penStyle, [⟨1, 2, 3⟩, ⟨4, 5, 6⟩]⟩

/-- C2 witness: the round-trip theorem applied at `roomC2`. -/
theorem C2_witness :
    alGet (handleStrokeEvent roomC2 "U" StrokeKind.start msgC2).1.strokes
        msgC2.strokeId = some ⟨msgC2.strokeId, msgC2.style, msgC2.points, "U"⟩
    ∧ alGet (handleWbUndo (handleStrokeEvent roomC2 "U" StrokeKind.start msgC2).1
        "U").1.strokes msgC2.strokeId = none
    ∧ alGet (handleWbRedo (handleWbUndo
          (handleStrokeEvent roomC2 "U" StrokeKind.start msgC2).1 "U").1
        "U").1.strokes msgC2.strokeId =
      some ⟨msgC2.strokeId, msgC2.style, msgC2.points, "U"⟩
    ∧ msgC2.strokeId ∈ undoView (handleWbRedo (handleWbUndo
          (handleStrokeEvent roomC2 "U" StrokeKind.start msgC2).1 "U").1
        "U").1 "U"
    ∧ redoView (handleWbRedo (handleWbUndo
          (handleStrokeEvent roomC2 "U" StrokeKind.start msgC2).1 "U").1
        "U").1 "U" = [] :=
  C2_undo_redo_roundtrip roomC2 "U" msgC2 (by decide)

theorem handleStrokeExisting (room : Room) (userId : String) (kind : StrokeKind)
    (m : StrokeMsg) {existing : StoredStroke}
    (h : alGet room.strokes m.strokeId = some existing) :
    (handleStrokeEvent room userId kind m).1.strokes =
      alSet room.strokes m.strokeId
        { existing with points := existing.points ++ m.points, style := m.style }
    ∧ (handleStrokeEvent room userId kind m).1.undo = room.undo
    ∧ (handleStrokeEvent room userId kind m).1.redo = room.redo
    ∧ (handleStrokeEvent room userId kind m).1.roomId = room.roomId
    ∧ (handleStrokeEvent room userId kind m).1.clients = room.clients
    ∧ (handleStrokeEvent room userId kind m).2 =
      broadcastRoom (handleStrokeEvent room userId kind m).1
        (OutMsg.wbStrokeEvent room.roomId userId kind.typeName m) := by
  simp [handleStrokeEvent, h]

theorem handleStrokeNew_nonstart {room : Room} {userId : String}
    {kind : StrokeKind} {m : StrokeMsg} (hk : kind ≠ StrokeKind.start)
    (h : alGet room.strokes m.strokeId = none) :
    (handleStrokeEvent room userId kind m).1.strokes =
      alSet room.strokes m.strokeId ⟨m.strokeId, m.style, m.points, userId⟩
    ∧ (handleStrokeEvent room userId kind m).1.undo = room.undo
    ∧ (handleStrokeEvent room userId kind m).1.redo = room.redo := by
  simp [handleStrokeEvent, h, hk]

/-- C5 counterexample fixture: the strokeId `s1` is already present
(authored by `V`), and `U`'s redo stack is non-empty. -/
def roomC5 : Room :=
  ⟨"r1", ["U", "V"], [("s1", ⟨"s1", penStyle, [⟨1, 1, 1⟩], "V"⟩)],
   [], [("U", [⟨"q", penStyle, [], "U"⟩])], []⟩

/-- C5 counterexample payload: a stroke-start for the existing `s1`. -/
def msgC5 : StrokeMsg := ⟨"s1", penStyle, [⟨2, 2, 2⟩]⟩

/-- C5 (counterexample): a `wb.stroke.start` from `U` whose strokeId is
already present is treated as a move: `U`'s non-empty redo stack is NOT
emptied and nothing is pushed onto `U`'s undo stack, refuting the claim
that every stroke-start empties the sender's redo stack. -/
theorem C5_counterexample :
    redoView roomC5 "U" ≠ []
    ∧ (handleStrokeEvent roomC5 "U" StrokeKind.start msgC5).1.redo = roomC5.redo
    ∧ redoView (handleStrokeEvent roomC5 "U" StrokeKind.start msgC5).1 "U" ≠ []
    ∧ undoView (handleStrokeEvent roomC5 "U" StrokeKind.start msgC5).1 "U" = [] := by
  decide

/-- C5 (amended): a `wb.stroke.start` from `U` whose strokeId is not yet in
the stroke map pushes the strokeId onto `U`'s undo stack and empties `U`'s
redo stack (in particular a redo stack non-empty before such a start is
empty after it); a stroke-start whose strokeId is already present is
treated as a stroke-move and leaves every undo and redo stack unchanged. -/
theorem C5_redo_invalidation (room : Room) (userId : String) (m : StrokeMsg) :
    (alGet room.strokes m.strokeId = none →
      undoView (handleStrokeEvent room userId StrokeKind.start m).1 userId =
        undoView room userId ++ [m.strokeId]
      ∧ redoView (handleStrokeEvent room userId StrokeKind.start m).1 userId = [])
    ∧ (∀ existing, alGet room.strokes m.strokeId = some existing →
      (handleStrokeEvent room userId StrokeKind.start m).1.undo = room.undo
      ∧ (handleStrokeEvent room userId StrokeKind.start m).1.redo = room.redo) := by
  constructor
  · intro habs
    obtain ⟨-, h2, h3⟩ := handleStrokeStart_new habs
    exact ⟨h2, h3⟩
  · intro existing hex
    obtain ⟨-, h2, h3, -⟩ := handleStrokeExisting room userId StrokeKind.start m hex
    exact ⟨h2, h3⟩

/-- C5 witness fixture: an absent strokeId over a non-empty redo stack. -/
def roomC5w : Room :=
  ⟨"r1", ["U"], [], [("U", ["old"])], [("U", [⟨"q", penStyle, [], "U"⟩])], []⟩

/-- C5 witness: the amended theorem applied at `roomC5w` (absent strokeId:
push and clear) and at `roomC5` (present strokeId: no stack change). -/
theorem C5_witness :
    (undoView (handleStrokeEvent roomC5w "U" StrokeKind.start msgC5).1 "U" =
        undoView roomC5w "U" ++ [msgC5.strokeId]
      ∧ redoView (handleStrokeEvent roomC5w "U" StrokeKind.start msgC5).1 "U" = [])
    ∧ ((handleStrokeEvent roomC5 "U" StrokeKind.start msgC5).1.undo = roomC5.undo
      ∧ (handleStrokeEvent roomC5 "U" StrokeKind.start msgC5).1.redo = roomC5.redo) :=
  ⟨(C5_redo_invalidation roomC5w "U" msgC5).1 (by decide),
   (C5_redo_invalidation roomC5 "U" msgC5).2 ⟨"s1", penStyle, [⟨1, 1, 1⟩], "V"⟩
     (by decide)⟩

/-- C6 counterexample fixture: a present stroke with one point. -/
def strokeC6 : StoredStroke := ⟨"s1", penStyle, [⟨1, 1, 1⟩], "U"⟩

/-- C6 counterexample fixture room. -/
def roomC6 : Room := ⟨"r1", ["U"], [("s1", strokeC6)], [("U", ["s1"])], [], []⟩

/-- C6 counterexample payload: a `wb.stroke.end` carrying a point. -/
def msgC6 : StrokeMsg := ⟨"s1", penStyle, [⟨9, 9, 9⟩]⟩

/-- C6 (counterexample): a `wb.stroke.end` whose payload carries points
appends them to the stored stroke — the stored points change, refuting the
claim that stroke-end payload points are ignored. -/
theorem C6_counterexample :
    alGet roomC6.strokes "s1" = some strokeC6
    ∧ alGet (handleStrokeEvent roomC6 "U" StrokeKind.strokeEnd msgC6).1.strokes "s1" =
        some ⟨"s1", penStyle, [⟨1, 1, 1⟩, ⟨9, 9, 9⟩], "U"⟩
    ∧ (alGet (handleStrokeEvent roomC6 "U" StrokeKind.strokeEnd msgC6).1.strokes "s1").map
        StoredStroke.points ≠ some strokeC6.points := by
  decide

/-- C6 (amended): a `wb.stroke.end` whose strokeId is present is handled
exactly like a `wb.stroke.move`: the payload's points are appended to the
stored stroke and the style replaced (so with the conventional empty points
payload the stored points are unchanged); no undo or redo stack changes;
the envelope is fanned out to the room; and a subsequent `wb.stroke.move`
for that strokeId is still accepted and appends. -/
theorem C6_stroke_end_advisory (room : Room) (userId : String) (m : StrokeMsg) :
    ∀ existing, alGet room.strokes m.strokeId = some existing →
      alGet (handleStrokeEvent room userId StrokeKind.strokeEnd m).1.strokes
          m.strokeId =
        some { existing with points := existing.points ++ m.points, style := m.style }
      ∧ (m.points = [] →
        alGet (handleStrokeEvent room userId StrokeKind.strokeEnd m).1.strokes
            m.strokeId = some { existing with style := m.style })
      ∧ (handleStrokeEvent room userId StrokeKind.strokeEnd m).1.undo = room.undo
      ∧ (handleStrokeEvent room userId StrokeKind.strokeEnd m).1.redo = room.redo
      ∧ (handleStrokeEvent room userId StrokeKind.strokeEnd m).2 =
        broadcastRoom (handleStrokeEvent room userId StrokeKind.strokeEnd m).1
          (OutMsg.wbStrokeEvent room.roomId userId "wb.stroke.end" m)
      ∧ (∀ userId2 m2, m2.strokeId = m.strokeId →
        alGet (handleStrokeEvent
            (handleStrokeEvent room userId StrokeKind.strokeEnd m).1
            userId2 StrokeKind.move m2).1.strokes m.strokeId =
          some { existing with
            points := (existing.points ++ m.points) ++ m2.points,
            style := m2.style }) := by
  intro existing hex
  obtain ⟨h1, h2, h3, -, -, h6⟩ :=
    handleStrokeExisting room userId StrokeKind.strokeEnd m hex
  have hget : alGet (handleStrokeEvent room userId StrokeKind.strokeEnd m).1.strokes
      m.strokeId =
      some { existing with points := existing.points ++ m.points, style := m.style } := by
    rw [h1]; exact alGet_alSet_self _ _ _
  refine ⟨hget, ?_, h2, h3, ?_, ?_⟩
  · intro hempty
    simpa [hempty] using hget
  · simpa [StrokeKind.typeName] using h6
  · intro userId2 m2 hsid
    have hget' : alGet (handleStrokeEvent room userId StrokeKind.strokeEnd m).1.strokes
        m2.strokeId =
        some { existing with points := existing.points ++ m.points, style := m.style } := by
      rw [hsid]; exact hget
    obtain ⟨g1, -⟩ :=
      handleStrokeExisting _ userId2 StrokeKind.move m2 hget'
    rw [← hsid, g1]
    simp [alGet_alSet_self]

/-- C6 witness: the amended theorem applied at `roomC6`. -/
theorem C6_witness :
    alGet (handleStrokeEvent roomC6 "U" StrokeKind.strokeEnd msgC6).1.strokes "s1" =
      some { strokeC6 with points := strokeC6.points ++ msgC6.points, style := msgC6.style }
    ∧ (msgC6.points = [] →
      alGet (handleStrokeEvent roomC6 "U" StrokeKind.strokeEnd msgC6).1.strokes "s1" =
        some { strokeC6 with style := msgC6.style })
    ∧ (handleStrokeEvent roomC6 "U" StrokeKind.strokeEnd msgC6).1.undo = roomC6.undo
    ∧ (handleStrokeEvent roomC6 "U" StrokeKind.strokeEnd msgC6).1.redo = roomC6.redo
    ∧ (handleStrokeEvent roomC6 "U" StrokeKind.strokeEnd msgC6).2 =
      broadcastRoom (handleStrokeEvent roomC6 "U" StrokeKind.strokeEnd msgC6).1
        (OutMsg.wbStrokeEvent roomC6.roomId "U" "wb.stroke.end" msgC6)
    ∧ (∀ userId2 m2, StrokeMsg.strokeId m2 = "s1" →
      alGet (handleStrokeEvent
          (handleStrokeEvent roomC6 "U" StrokeKind.strokeEnd msgC6).1
          userId2 StrokeKind.move m2).1.strokes "s1" =
        some { strokeC6 with
          points := (strokeC6.points ++ msgC6.points) ++ m2.points,
          style := m2.style }) :=
  C6_stroke_end_advisory roomC6 "U" msgC6 strokeC6 (by decide)

theorem handleWbClear_fst (room : Room) (userId : String) :
    (handleWbClear room userId).1 =
      { room with strokes := [], undo := [(userId, [])], redo := [(userId, [])] } := by
  simp [handleWbClear, sendHistory, getStack, alGet]

theorem handleWbUndo_none_aux {room : Room} {userId : String}
    {restRev : List String}
    (h : undoLoop room.strokes userId (undoView room userId).reverse =
      (restRev, none)) :
    (handleWbUndo room userId).1.roomId = room.roomId
    ∧ (handleWbUndo room userId).1.clients = room.clients
    ∧ (handleWbUndo room userId).1.chat = room.chat
    ∧ ∀ v, v ≠ userId → undoView (handleWbUndo room userId).1 v = undoView room v := by
  have hsnd : (getStack room.undo userId).2 = undoView room userId :=
    getStack_snd _ _
  simp only [handleWbUndo, hsnd, h]
  refine ⟨trivial, trivial, trivial, ?_⟩
  intro v hv
  have h1 := alGet_alSet_ne (getStack room.undo userId).1 userId v ([] : List String) hv
  have h2 := stackView_getStack_fst room.undo userId v
  simp only [undoView, stackView] at *
  rw [h1, h2]

/-- Observational equality of rooms: identical id, clients, strokes and
chat, and identical undo/redo stacks as observed through
`getUndoStack`-style access (which reads an absent entry as empty — the
only representation difference the handlers can introduce). -/
def roomObsEq (r r' : Room) : Prop :=
  r.roomId = r'.roomId ∧ r.clients = r'.clients ∧ r.strokes = r'.strokes
  ∧ r.chat = r'.chat ∧ (∀ u, undoView r u = undoView r' u)
  ∧ (∀ u, redoView r u = redoView r' u)

/-- C7: a `wb.clear` empties the stroke map and every user's undo and redo
stacks; it is not undoable — a `wb.undo` by any user immediately after a
clear leaves the room state observationally unchanged and sends nothing;
and two consecutive `wb.clear` events leave the room in exactly the same
state as the single second clear. -/
theorem C7_clear_semantics (room : Room) (c c2 u : String) :
    (handleWbClear room c).1.strokes = []
    ∧ (∀ v, undoView (handleWbClear room c).1 v = []
        ∧ redoView (handleWbClear room c).1 v = [])
    ∧ roomObsEq (handleWbUndo (handleWbClear room c).1 u).1 (handleWbClear room c).1
    ∧ (handleWbUndo (handleWbClear room c).1 u).2 = []
    ∧ (handleWbClear (handleWbClear room c).1 c2).1 = (handleWbClear room c2).1 := by
  have hfst := handleWbClear_fst room c
  have hviews : ∀ v, undoView (handleWbClear room c).1 v = []
      ∧ redoView (handleWbClear room c).1 v = [] := by
    intro v
    rw [hfst]
    by_cases hv : c = v
    · subst hv
      simp [undoView, redoView, stackView, alGet]
    · simp [undoView, redoView, stackView, alGet, hv]
  have hloop : undoLoop (handleWbClear room c).1.strokes u
      (undoView (handleWbClear room c).1 u).reverse = ([], none) := by
    rw [(hviews u).1]
    simp [undoLoop]
  obtain ⟨g1, g2, g3, g4⟩ := handleWbUndo_none_fields hloop
  obtain ⟨a1, a2, a3, a4⟩ := handleWbUndo_none_aux hloop
  refine ⟨by rw [hfst], hviews, ⟨a1, a2, g1, a3, ?_, g3⟩, g4, ?_⟩
  · intro v
    by_cases hv : v = u
    · subst hv
      rw [g2, (hviews v).1]
    · exact a4 v hv
  · rw [handleWbClear_fst, hfst, handleWbClear_fst]

/-- C9 trace fixture: the starting room with users `u` and `w`. -/
def roomC9 : Room := ⟨"r", ["u", "w"], [], [], [], []⟩

/-- C9 trace: `u` starts stroke `s`. -/
def roomC9a : Room :=
  (handleStrokeEvent roomC9 "u" StrokeKind.start ⟨"s", penStyle, [⟨1, 1, 1⟩]⟩).1

/-- C9 trace: `u` undoes `s`. -/
def roomC9b : Room := (handleWbUndo roomC9a "u").1

/-- C9 trace: `w` starts a fresh stroke with the same id `s`. -/
def roomC9c : Room :=
  (handleStrokeEvent roomC9b "w" StrokeKind.start ⟨"s", penStyle, [⟨2, 2, 2⟩]⟩).1

/-- C9 trace: `u` redoes, overwriting `w`'s stroke with `u`'s. -/
def roomC9d : Room := (handleWbRedo roomC9c "u").1

/-- C9 trace: `u` undoes again; now `s` is absent while `w`'s undo stack
still holds the stale entry `s`. -/
def roomC9e : Room := (handleWbUndo roomC9d "u").1

/-- C9 trace: `w` sends a `wb.stroke.move` for the absent id `s`, which
creates a brand-new stroke authored by `w` without touching any stack. -/
def roomC9f : Room :=
  (handleStrokeEvent roomC9e "w" StrokeKind.move ⟨"s", penStyle, [⟨3, 3, 3⟩]⟩).1

/-- C9 (counterexample): in the reachable room `roomC9e`, the id `s` is
absent but still sits on `w`'s undo stack; `w`'s `wb.stroke.move` then
creates a brand-new stroke authored by `w` without touching any stack — and
`w`'s next `wb.undo` REMOVES that move-created stroke, refuting the claim
that a stroke created by a move/end can never be removed by `wb.undo`. -/
theorem C9_counterexample :
    alGet roomC9e.strokes "s" = none
    ∧ undoView roomC9e "w" = ["s"]
    ∧ alGet roomC9f.strokes "s" = some ⟨"s", penStyle, [⟨3, 3, 3⟩], "w"⟩
    ∧ roomC9f.undo = roomC9e.undo
    ∧ roomC9f.redo = roomC9e.redo
    ∧ alGet (handleWbUndo roomC9f "w").1.strokes "s" = none := by
  decide

/-- C9 (amended): a `wb.stroke.move` or `wb.stroke.end` whose strokeId is
not present creates a brand-new stroke authored by the sender, pushing onto
no undo stack and clearing no redo stack; but such a stroke CAN later be
removed by `wb.undo` when its strokeId was already sitting on the sender's
undo stack from earlier history (the creation itself never records the id
anywhere). -/
theorem C9_move_end_creation (room : Room) (userId : String) (kind : StrokeKind)
    (m : StrokeMsg) (hk : kind ≠ StrokeKind.start)
    (habs : alGet room.strokes m.strokeId = none) :
    (handleStrokeEvent room userId kind m).1.strokes =
      alSet room.strokes m.strokeId ⟨m.strokeId, m.style, m.points, userId⟩
    ∧ alGet (handleStrokeEvent room userId kind m).1.strokes m.strokeId =
      some ⟨m.strokeId, m.style, m.points, userId⟩
    ∧ (handleStrokeEvent room userId kind m).1.undo = room.undo
    ∧ (handleStrokeEvent room userId kind m).1.redo = room.redo := by
  obtain ⟨h1, h2, h3⟩ := handleStrokeNew_nonstart hk habs
  refine ⟨h1, ?_, h2, h3⟩
  rw [h1]
  exact alGet_alSet_self _ _ _

/-- C9 witness: the amended theorem applied at `roomC9e` with `w`'s move. -/
theorem C9_witness :
    roomC9f.strokes =
      alSet roomC9e.strokes "s" ⟨"s", penStyle, [⟨3, 3, 3⟩], "w"⟩
    ∧ alGet roomC9f.strokes "s" = some ⟨"s", penStyle, [⟨3, 3, 3⟩], "w"⟩
    ∧ roomC9f.undo = roomC9e.undo
    ∧ roomC9f.redo = roomC9e.redo :=
  C9_move_end_creation roomC9e "w" StrokeKind.move ⟨"s", penStyle, [⟨3, 3, 3⟩]⟩
    (by decide) (by decide)

/-- C3 fixture room: the mobile client `M` alone in room `r1`. -/
def roomC3 : Room := ⟨"r1", ["M"], [], [], [], []⟩

/-- C3 fixture token: minted for `r1` by web user `W`, expired at 100. -/
def tokenC3 : PairTokenInfo := ⟨"T", "r1", "W", 100⟩

/-- C3 fixture state: the expired token is still in the table (the ~10 s
reaper has not yet run). -/
def stC3 : ServerState :=
  ⟨[("r1", roomC3)], [("T", tokenC3)], [⟨"M", some "r1", Role.mobile, none⟩], []⟩

/-- C3 (code evaluated at the failing input): the `pair.claim` branch never
compares `expiresAt` with the clock. A claim at `now = 200`, strictly after
the token's `expiresAt = 100` but before the reaper has deleted it, yields
`pair.success` and consumes the token; only when `cleanupExpiredTokens` has
run first does the same claim yield the documented
`Invalid or expired token` error. -/
theorem C3_claim_ignores_expiry :
    tokenC3.expiresAt < 200
    ∧ (step stC3 (Event.msg "M" 200 "fresh" (ClientMsg.pairClaim "T"))).2 =
      [Output.send "M" (OutMsg.pairSuccess "r1" "M" "W")]
    ∧ alGet (step stC3 (Event.msg "M" 200 "fresh"
        (ClientMsg.pairClaim "T"))).1.pairTokens "T" = none
    ∧ (step { stC3 with pairTokens := cleanupExpiredTokens stC3.pairTokens 200 }
        (Event.msg "M" 200 "fresh" (ClientMsg.pairClaim "T"))).2 =
      [Output.send "M" (OutMsg.pairError "r1" "M" "Invalid or expired token")] :=
  ⟨by decide, rfl, by decide, rfl⟩

theorem safeParseEnvelope_shape {j : Json} {env : Envelope}
    (h : safeParseEnvelope j = some env) :
    (∃ fields, j = Json.obj fields)
    ∧ getField j "v" = some (Json.num 1)
    ∧ getField j "type" = some (Json.str env.type) := by
  cases j with
  | obj fields =>
    refine ⟨⟨fields, rfl⟩, ?_⟩
    simp only [safeParseEnvelope] at h
    split at h
    · split at h
      · split at h
        · injection h with henv
          subst henv
          constructor
          · assumption
          · assumption
        · exact absurd h (by simp)
      · exact absurd h (by simp)
    · exact absurd h (by simp)
  | null => exact absurd h (by simp [safeParseEnvelope])
  | bool b => exact absurd h (by simp [safeParseEnvelope])
  | num n => exact absurd h (by simp [safeParseEnvelope])
  | str s => exact absurd h (by simp [safeParseEnvelope])
  | arr e => exact absurd h (by simp [safeParseEnvelope])

theorem dispatchEnvelope_unknown {st : ServerState} {userId : String} {now : Int}
    {freshId : String} {env : Envelope} (h : env.type = "") :
    dispatchEnvelope st userId now freshId env = (st, []) := by
  simp [dispatchEnvelope, h]

/-- C8: for every inbound frame whose bytes are not a JSON object with
`v = 1` and a non-empty string `type` — unparseable JSON (`none`), wrong
shape, or wrong version — the handler emits no output and leaves the whole
server state (rooms, chat, undo/redo, pair tokens) unchanged. -/
theorem C8_envelope_discipline (st : ServerState) (userId : String) (now : Int)
    (freshId : String) (frame : Option Json)
    (h : frame = none ∨ ∃ j, frame = some j ∧ envelopeShapeOk j = false) :
    handleFrame st userId now freshId frame = (st, []) := by
  rcases h with h | ⟨j, hj, hbad⟩
  · rw [h]
    rfl
  · rw [hj]
    simp only [handleFrame]
    cases hp : safeParseEnvelope j with
    | none => rfl
    | some env =>
      obtain ⟨⟨fields, hobj⟩, hv, ht⟩ := safeParseEnvelope_shape hp
      have htype : env.type = "" := by
        subst hobj
        simp [envelopeShapeOk, hv, ht] at hbad
        exact hbad
      exact dispatchEnvelope_unknown htype

/-- C8 witness fixture state. -/
def stC8 : ServerState :=
  ⟨[("r", ⟨"r", ["u"], [], [], [], []⟩)], [], [⟨"u", some "r", Role.web, none⟩], []⟩

/-- C8 witness fixture frame: a JSON object with the wrong version. -/
def frameC8 : Json := Json.obj [("v", Json.num 2), ("type", Json.str "wb.clear")]

/-- C8 witness: the discipline theorem applied to a `v = 2` frame. -/
theorem C8_witness :
    envelopeShapeOk frameC8 = false
    ∧ handleFrame stC8 "u" 0 "f" (some frameC8) = (stC8, []) :=
  ⟨by decide,
   C8_envelope_discipline stC8 "u" 0 "f" (some frameC8)
     (Or.inr ⟨frameC8, rfl, by decide⟩)⟩

/-- C10: when the sole occupant of a registered room sends `room.join` for
its own current room, the server first removes it (emptying the room),
deletes the room from the registry, and recreates it from the persisted
snapshot: the new room's stroke map is rebuilt from disk, its chat buffer
is empty, and every user's undo and redo stacks are empty. -/
theorem C10_self_rejoin_sole_occupant (st : ServerState) (c : ClientMeta)
    (userId R : String) (room₀ : Room) (now : Int) (freshId : String)
    (hc : getClient st userId = some c) (hcr : c.roomId = some R) (hR : R ≠ "")
    (hroom : alGet st.rooms R = some room₀) (hsole : room₀.clients = [userId]) :
    ∃ room', alGet (step st (Event.msg userId now freshId
        (ClientMsg.joinRoom R))).1.rooms R = some room'
      ∧ room'.clients = [userId]
      ∧ room'.strokes = strokesFromDisk ((alGet st.disk R).getD [])
      ∧ room'.chat = []
      ∧ (∀ u, undoView room' u = [] ∧ redoView room' u = []) := by
  have hcu : c.userId = userId := by
    have h1 := List.find?_some (by simpa [getClient] using hc)
    simpa using h1
  subst hcu
  refine ⟨⟨R, [c.userId], strokesFromDisk ((alGet st.disk R).getD []),
    [(c.userId, [])], [(c.userId, [])], []⟩, ?_, rfl, rfl, rfl, ?_⟩
  · simp only [step, stepMsg, hc, handleJoin, hcr, hroom]
    simp [hR, hsole, getOrCreateRoomS, updateClient, addClientToRoom, sendHistory,
      getStack, alGet_alDelete_self, alGet_alSet_self, alGet]
  · intro u
    by_cases hu : c.userId = u
    · subst hu
      simp [undoView, redoView, stackView, alGet]
    · simp [undoView, redoView, stackView, alGet, hu]

/-- Whether an event mints the given token string via `pair.create`. -/
def mintsTok (e : Event) (tok : String) : Bool :=
  match e with
  | .msg _ _ freshId ClientMsg.pairCreate => freshId = tok
  | _ => false

/-- Whether an output is a `pair.success` unicast. -/
def isPairSuccessOut : Output → Bool
  | .send _ (OutMsg.pairSuccess _ _ _) => true
  | _ => false

theorem getOrCreateRoomS_pairTokens (st : ServerState) (roomId : String) :
    (getOrCreateRoomS st roomId).1.pairTokens = st.pairTokens := by
  simp only [getOrCreateRoomS]
  split <;> rfl

theorem getOrCreateRoomS_clients (st : ServerState) (roomId : String) :
    (getOrCreateRoomS st roomId).1.clients = st.clients := by
  simp only [getOrCreateRoomS]
  split <;> rfl

theorem withRoom_pairTokens (st : ServerState) (roomId : String)
    (f : Room → Room × List Output) :
    (withRoom st roomId f).1.pairTokens = st.pairTokens := by
  simp only [withRoom]
  split <;> rfl

theorem withRoom_clients (st : ServerState) (roomId : String)
    (f : Room → Room × List Output) :
    (withRoom st roomId f).1.clients = st.clients := by
  simp only [withRoom]
  split <;> rfl

theorem handleJoin_pairTokens (st : ServerState) (c : ClientMeta) (r : String) :
    (handleJoin st c r).1.pairTokens = st.pairTokens := by
  by_cases hr : r = ""
  · simp [handleJoin, hr]
  · cases hcr : c.roomId with
    | none =>
      simp [handleJoin, hr, hcr, getOrCreateRoomS_pairTokens]
    | some old =>
      cases ho : alGet st.rooms old with
      | none => simp [handleJoin, hr, hcr, ho, getOrCreateRoomS_pairTokens]
      | some oldRoom =>
        simp only [handleJoin, hr, hcr, ho, if_neg hr]
        simp [apply_ite ServerState.pairTokens, getOrCreateRoomS_pairTokens,
          apply_ite ServerState.rooms]

theorem stepMsg_pairTokens_nonpair (st : ServerState) (uid : String) (now : Int)
    (freshId : String) (cm : ClientMsg)
    (h1 : ∀ t, cm ≠ ClientMsg.pairClaim t) (h2 : cm ≠ ClientMsg.pairCreate) :
    (stepMsg st uid now freshId cm).1.pairTokens = st.pairTokens := by
  cases hgc : getClient st uid with
  | none => simp [stepMsg, hgc]
  | some client =>
    cases cm with
    | joinRoom r => simp [stepMsg, hgc, handleJoin_pairTokens]
    | pairCreate => exact absurd rfl h2
    | pairClaim t => exact absurd rfl (h1 t)
    | rtcRelay kind toUserId payload =>
      cases hcr : client.roomId with
      | none => simp [stepMsg, hgc, hcr]
      | some r =>
        simp only [stepMsg, hgc, hcr]
        cases alGet st.rooms r with
        | none => rfl
        | some room =>
          repeat' split
          all_goals rfl
    | wbUndo =>
      cases hcr : client.roomId with
      | none => simp [stepMsg, hgc, hcr]
      | some r => simp [stepMsg, hgc, hcr, withRoom_pairTokens]
    | wbRedo =>
      cases hcr : client.roomId with
      | none => simp [stepMsg, hgc, hcr]
      | some r => simp [stepMsg, hgc, hcr, withRoom_pairTokens]
    | wbSnapshotRequest =>
      cases hcr : client.roomId with
      | none => simp [stepMsg, hgc, hcr]
      | some r =>
        simp only [stepMsg, hgc, hcr]
        cases alGet st.rooms r <;> simp
    | cursorMove payload =>
      cases hcr : client.roomId with
      | none => simp [stepMsg, hgc, hcr]
      | some r =>
        simp only [stepMsg, hgc, hcr]
        cases alGet st.rooms r <;> simp
    | strokeEvent kind m =>
      cases hcr : client.roomId with
      | none => simp [stepMsg, hgc, hcr]
      | some r => simp [stepMsg, hgc, hcr, withRoom_pairTokens]
    | wbClear =>
      cases hcr : client.roomId with
      | none => simp [stepMsg, hgc, hcr]
      | some r => simp [stepMsg, hgc, hcr, withRoom_pairTokens]
    | chatHistoryRequest =>
      cases hcr : client.roomId with
      | none => simp [stepMsg, hgc, hcr]
      | some r =>
        simp only [stepMsg, hgc, hcr]
        cases alGet st.rooms r <;> simp
    | chatMessage text name clientId =>
      cases hcr : client.roomId with
      | none => simp [stepMsg, hgc, hcr]
      | some r => simp [stepMsg, hgc, hcr, withRoom_pairTokens]

theorem step_connect_pairTokens (st : ServerState) (uid : String) (role : Role) :
    (step st (Event.connect uid role)).1.pairTokens = st.pairTokens := rfl

theorem step_disconnect_pairTokens (st : ServerState) (uid : String) :
    (step st (Event.disconnect uid)).1.pairTokens = st.pairTokens := by
  cases hgc : getClient st uid with
  | none => simp [step, hgc]
  | some client =>
    cases hcr : client.roomId with
    | none => simp [step, hgc, hcr]
    | some roomId =>
      cases hr : alGet st.rooms roomId with
      | none => simp [step, hgc, hcr, hr]
      | some room =>
        simp [step, hgc, hcr, hr, apply_ite ServerState.pairTokens]

theorem alGet_filter_isSome {α : Type} (m : List (String × α))
    (p : String × α → Bool) (k : String)
    (h : (alGet (m.filter p) k).isSome = true) : (alGet m k).isSome = true := by
  induction m with
  | nil => simp [alGet] at h
  | cons e t ih =>
    obtain ⟨ek, ev⟩ := e
    by_cases hk : ek = k
    · simp [alGet, hk]
    · by_cases hp : p (ek, ev)
      · have h2 : (alGet (t.filter p) k).isSome = true := by
          simpa [List.filter_cons, hp, alGet, hk] using h
        simpa [alGet, hk] using ih h2
      · have h2 : (alGet (t.filter p) k).isSome = true := by
          simpa [List.filter_cons, hp] using h
        simpa [alGet, hk] using ih h2

theorem claimOk_spec {st : ServerState} {uid tok : String}
    (h : claimOk st uid tok = true) :
    ∃ c r info, getClient st uid = some c ∧ c.role = Role.mobile
      ∧ c.roomId = some r ∧ alGet st.pairTokens tok = some info
      ∧ info.roomId = r := by
  unfold claimOk at h
  cases hgc : getClient st uid with
  | none => simp [hgc] at h
  | some c =>
    simp only [hgc] at h
    cases hcr : c.roomId with
    | none => simp [hcr] at h
    | some r =>
      simp only [hcr] at h
      cases ht : alGet st.pairTokens tok with
      | none => simp [ht] at h
      | some info =>
        simp only [ht] at h
        simp at h
        exact ⟨c, r, info, rfl, h.1, hcr, rfl, h.2⟩

theorem step_pairClaim_tokens_cases (st : ServerState) (uid : String) (now : Int)
    (freshId t : String) :
    (step st (Event.msg uid now freshId (ClientMsg.pairClaim t))).1.pairTokens =
      st.pairTokens
    ∨ (step st (Event.msg uid now freshId (ClientMsg.pairClaim t))).1.pairTokens =
      alDelete st.pairTokens t := by
  simp only [step, stepMsg]
  cases hgc : getClient st uid with
  | none => simp [hgc]
  | some client =>
    simp only [hgc]
    cases hcr : client.roomId with
    | none => simp [hcr]
    | some roomId =>
      simp only [hcr, handlePairClaim]
      by_cases hrole : client.role = Role.mobile
      · simp only [hrole, ne_eq, not_true_eq_false, if_false, reduceIte]
        cases ht : alGet st.pairTokens t with
        | none => simp [ht]
        | some info =>
          simp only [ht]
          by_cases hrm : info.roomId = roomId
          · refine Or.inr ?_
            simp [hrm]
          · simp [hrm]
      · simp [hrole]

theorem step_pairClaim_success_tokens {st : ServerState} {uid tok : String}
    (now : Int) (freshId : String) (h : claimOk st uid tok = true) :
    (step st (Event.msg uid now freshId (ClientMsg.pairClaim tok))).1.pairTokens =
      alDelete st.pairTokens tok := by
  obtain ⟨c, r, info, hgc, hrole, hcr, ht, hrm⟩ := claimOk_spec h
  simp only [step, stepMsg, hgc, hcr, handlePairClaim, hrole, ht]
  simp [hrm]

theorem step_pairCreate_tokens_cases (st : ServerState) (uid : String) (now : Int)
    (freshId : String) :
    (step st (Event.msg uid now freshId ClientMsg.pairCreate)).1.pairTokens =
      st.pairTokens
    ∨ ∃ info, (step st (Event.msg uid now freshId
        ClientMsg.pairCreate)).1.pairTokens = alSet st.pairTokens freshId info := by
  simp only [step, stepMsg]
  cases hgc : getClient st uid with
  | none => simp [hgc]
  | some client =>
    simp only [hgc]
    cases hcr : client.roomId with
    | none => simp [hcr]
    | some roomId =>
      simp only [hcr, handlePairCreate]
      by_cases hrole : client.role = Role.web
      · refine Or.inr ⟨⟨freshId, roomId, client.userId, now + 2 * 60 * 1000⟩, ?_⟩
        simp [hrole]
      · simp [hrole]

theorem alGet_cleanup_isSome (m : List (String × PairTokenInfo)) (now : Int)
    (k : String)
    (h : (alGet (cleanupExpiredTokens m now) k).isSome = true) :
    (alGet m k).isSome = true :=
  alGet_filter_isSome m _ k h

theorem tokInd_le_one (st : ServerState) (tok : String) : tokInd st tok ≤ 1 := by
  unfold tokInd
  split <;> simp

theorem step_msg_pairTokens_nonpair (st : ServerState) (uid : String)
    (now : Int) (freshId : String) (cm : ClientMsg)
    (h1 : ∀ t, cm ≠ ClientMsg.pairClaim t) (h2 : cm ≠ ClientMsg.pairCreate) :
    (step st (Event.msg uid now freshId cm)).1.pairTokens = st.pairTokens :=
  stepMsg_pairTokens_nonpair st uid now freshId cm h1 h2

theorem tokInd_step_le (st : ServerState) (e : Event) (tok : String)
    (hm : mintsTok e tok = false) : tokInd (step st e).1 tok ≤ tokInd st tok := by
  have hnp : ∀ cm, (∀ t, cm ≠ ClientMsg.pairClaim t) →
      cm ≠ ClientMsg.pairCreate → ∀ uid now freshId,
      tokInd (step st (Event.msg uid now freshId cm)).1 tok ≤ tokInd st tok := by
    intro cm h1 h2 uid now freshId
    refine Nat.le_of_eq ?_
    unfold tokInd
    rw [step_msg_pairTokens_nonpair st uid now freshId cm h1 h2]
  cases e with
  | connect uid role => exact Nat.le_of_eq rfl
  | disconnect uid =>
    refine Nat.le_of_eq ?_
    unfold tokInd
    rw [step_disconnect_pairTokens]
  | reap now =>
    unfold tokInd
    by_cases h : (alGet (step st (Event.reap now)).1.pairTokens tok).isSome
    · have hb : (alGet st.pairTokens tok).isSome = true :=
        alGet_cleanup_isSome st.pairTokens now tok (by simpa [step] using h)
      simp [h, hb]
    · simp [h]
  | msg uid now freshId cm =>
    cases cm with
    | pairClaim t =>
      rcases step_pairClaim_tokens_cases st uid now freshId t with h | h
      · exact Nat.le_of_eq (by unfold tokInd; rw [h])
      · unfold tokInd
        rw [h]
        by_cases htk : tok = t
        · subst htk
          simp [alGet_alDelete_self]
        · rw [alGet_alDelete_ne _ _ _ htk]
    | pairCreate =>
      have hf : freshId ≠ tok := by simpa [mintsTok] using hm
      rcases step_pairCreate_tokens_cases st uid now freshId with h | ⟨info, h⟩
      · exact Nat.le_of_eq (by unfold tokInd; rw [h])
      · unfold tokInd
        rw [h, alGet_alSet_ne _ _ _ _ (Ne.symm hf)]
    | joinRoom r =>
      exact hnp (ClientMsg.joinRoom r) (fun t => by simp) (by simp) uid now freshId
    | rtcRelay kind toUserId payload =>
      exact hnp (ClientMsg.rtcRelay kind toUserId payload) (fun t => by simp)
        (by simp) uid now freshId
    | wbUndo =>
      exact hnp ClientMsg.wbUndo (fun t => by simp) (by simp) uid now freshId
    | wbRedo =>
      exact hnp ClientMsg.wbRedo (fun t => by simp) (by simp) uid now freshId
    | wbSnapshotRequest =>
      exact hnp ClientMsg.wbSnapshotRequest (fun t => by simp) (by simp)
        uid now freshId
    | cursorMove payload =>
      exact hnp (ClientMsg.cursorMove payload) (fun t => by simp) (by simp)
        uid now freshId
    | strokeEvent kind m =>
      exact hnp (ClientMsg.strokeEvent kind m) (fun t => by simp) (by simp)
        uid now freshId
    | wbClear =>
      exact hnp ClientMsg.wbClear (fun t => by simp) (by simp) uid now freshId
    | chatHistoryRequest =>
      exact hnp ClientMsg.chatHistoryRequest (fun t => by simp) (by simp)
        uid now freshId
    | chatMessage text name clientId =>
      exact hnp (ClientMsg.chatMessage text name clientId) (fun t => by simp)
        (by simp) uid now freshId

theorem createsFor_cons (e : Event) (tr : List Event) (tok : String) :
    createsFor (e :: tr) tok =
      (if mintsTok e tok = true then 1 else 0) + createsFor tr tok := by
  cases e with
  | msg uid now freshId cm => cases cm <;> simp [createsFor, mintsTok]
  | connect uid role => simp [createsFor, mintsTok]
  | disconnect uid => simp [createsFor, mintsTok]
  | reap now => simp [createsFor, mintsTok]

theorem isClaimSuccess_true_elim {st : ServerState} {e : Event} {tok : String}
    (h : isClaimSuccess st e tok = true) :
    ∃ uid now freshId, e = Event.msg uid now freshId (ClientMsg.pairClaim tok)
      ∧ claimOk st uid tok = true := by
  cases e with
  | msg uid now freshId cm =>
    cases cm with
    | pairClaim t =>
      simp only [isClaimSuccess] at h
      simp at h
      exact ⟨uid, now, freshId, by rw [h.1], h.2⟩
    | joinRoom r => simp [isClaimSuccess] at h
    | rtcRelay kind toUserId payload => simp [isClaimSuccess] at h
    | wbUndo => simp [isClaimSuccess] at h
    | wbRedo => simp [isClaimSuccess] at h
    | wbSnapshotRequest => simp [isClaimSuccess] at h
    | cursorMove payload => simp [isClaimSuccess] at h
    | pairCreate => simp [isClaimSuccess] at h
    | strokeEvent kind m => simp [isClaimSuccess] at h
    | wbClear => simp [isClaimSuccess] at h
    | chatHistoryRequest => simp [isClaimSuccess] at h
    | chatMessage text name clientId => simp [isClaimSuccess] at h
  | connect uid role => simp [isClaimSuccess] at h
  | disconnect uid => simp [isClaimSuccess] at h
  | reap now => simp [isClaimSuccess] at h

theorem successesFor_le (tok : String) : ∀ (tr : List Event) (st : ServerState),
    successesFor st tr tok ≤ createsFor tr tok + tokInd st tok := by
  intro tr
  induction tr with
  | nil =>
    intro st
    simp [successesFor, createsFor]
  | cons e tr ih =>
    intro st
    rw [show successesFor st (e :: tr) tok =
      (if isClaimSuccess st e tok then 1 else 0) +
        successesFor (step st e).1 tr tok from rfl]
    rw [createsFor_cons]
    by_cases hS : isClaimSuccess st e tok = true
    · obtain ⟨uid, now, freshId, he, hok⟩ := isClaimSuccess_true_elim hS
      subst he
      have h1 : tokInd st tok = 1 := by
        obtain ⟨c, r, info, -, -, -, ht, -⟩ := claimOk_spec hok
        simp [tokInd, ht]
      have h0 : tokInd (step st (Event.msg uid now freshId
          (ClientMsg.pairClaim tok))).1 tok = 0 := by
        unfold tokInd
        rw [step_pairClaim_success_tokens now freshId hok]
        simp [alGet_alDelete_self]
      have hmint : mintsTok (Event.msg uid now freshId
          (ClientMsg.pairClaim tok)) tok = false := by simp [mintsTok]
      have hih := ih (step st (Event.msg uid now freshId
        (ClientMsg.pairClaim tok))).1
      rw [h0] at hih
      simp only [hS, if_true, hmint, if_false, h1]
      omega
    · have hSf : isClaimSuccess st e tok = false := by
        simpa using hS
      by_cases hm : mintsTok e tok = true
      · have hih := ih (step st e).1
        have hle : tokInd (step st e).1 tok ≤ 1 := tokInd_le_one _ _
        simp only [hSf, hm, Bool.false_eq_true, if_false, if_true]
        omega
      · have hmf : mintsTok e tok = false := by simpa using hm
        have hih := ih (step st e).1
        have hle := tokInd_step_le st e tok hmf
        simp only [hSf, hmf, Bool.false_eq_true, if_false]
        omega

theorem getClient_userId {st : ServerState} {uid : String} {c : ClientMeta}
    (h : getClient st uid = some c) : c.userId = uid := by
  unfold getClient at h
  have h2 := List.find?_some h
  simpa using h2

theorem find?_updateClient (l : List ClientMeta) (uid : String)
    (c c2 : ClientMeta) (h : l.find? (fun d => d.userId = uid) = some c)
    (h2 : c2.userId = c.userId) :
    (updateClient l c2).find? (fun d => d.userId = uid) = some c2 := by
  have hcu : c.userId = uid := by
    have h3 := List.find?_some h
    simpa using h3
  induction l with
  | nil => simp at h
  | cons d t ih =>
    by_cases hd : d.userId = uid
    · have hc : d = c := by
        have h4 : some d = some c := by
          rw [← h]
          exact (List.find?_cons_of_pos t (by simpa using hd)).symm
        injection h4
      subst hc
      have hdu : d.userId = c2.userId := by rw [h2]
      simp only [updateClient, List.map_cons]
      rw [if_pos hdu]
      exact List.find?_cons_of_pos _ (by simp [h2, hcu])
    · have ht : t.find? (fun d => d.userId = uid) = some c := by
        rw [← h]
        exact (List.find?_cons_of_neg t (by simpa using hd)).symm
      have hd2 : ¬ d.userId = c2.userId := by
        rw [h2, hcu]
        exact hd
      have ih2 := ih ht
      simp only [updateClient, List.map_cons]
      rw [if_neg hd2]
      rw [List.find?_cons_of_neg _ (by simpa using hd)]
      simpa [updateClient] using ih2

theorem step_pairClaim_success_full {st : ServerState} {uid tok : String}
    (now : Int) (freshId : String) (h : claimOk st uid tok = true) :
    ∃ c r info, getClient st uid = some c ∧ c.role = Role.mobile
      ∧ c.roomId = some r ∧ alGet st.pairTokens tok = some info ∧ info.roomId = r
      ∧ alGet (step st (Event.msg uid now freshId
          (ClientMsg.pairClaim tok))).1.pairTokens tok = none
      ∧ getClient (step st (Event.msg uid now freshId
          (ClientMsg.pairClaim tok))).1 uid =
        some { c with pairedToUserId := some info.webUserId }
      ∧ Output.send uid (OutMsg.pairSuccess r uid info.webUserId) ∈
        (step st (Event.msg uid now freshId (ClientMsg.pairClaim tok))).2 := by
  obtain ⟨c, r, info, hgc, hrole, hcr, ht, hrm⟩ := claimOk_spec h
  have hcu : c.userId = uid := getClient_userId hgc
  refine ⟨c, r, info, hgc, hrole, hcr, ht, hrm, ?_, ?_, ?_⟩
  · rw [step_pairClaim_success_tokens now freshId h]
    exact alGet_alDelete_self _ _
  · simp only [step, stepMsg, hgc, hcr, handlePairClaim, hrole, ht]
    simp only [hrm, ne_eq, not_true_eq_false, if_false, reduceIte]
    unfold getClient
    have hrec : (ClientMeta.mk c.userId (some r) Role.mobile (some info.webUserId)) =
        { c with pairedToUserId := some info.webUserId } := by
      obtain ⟨cu, crm, crl, cp⟩ := c
      simp only at hcr hrole
      simp [hcr, hrole]
    rw [hrec]
    exact find?_updateClient st.clients uid c
      { c with pairedToUserId := some info.webUserId } (by rw [← hgc]; rfl) rfl
  · simp only [step, stepMsg, hgc, hcr, handlePairClaim, hrole, ht]
    simp only [hrm, ne_eq, not_true_eq_false, if_false, reduceIte]
    rw [hcu]
    exact List.mem_cons_self _ _

theorem step_pairClaim_fail_outputs {st : ServerState} {uid tok : String}
    {now : Int} {freshId : String} (h : claimOk st uid tok = false) :
    ∀ out ∈ (step st (Event.msg uid now freshId (ClientMsg.pairClaim tok))).2,
      isPairSuccessOut out = false := by
  cases hgc : getClient st uid with
  | none =>
    simp [step, stepMsg, hgc]
  | some c =>
    cases hcr : c.roomId with
    | none => simp [step, stepMsg, hgc, hcr]
    | some r =>
      by_cases hrole : c.role = Role.mobile
      · cases ht : alGet st.pairTokens tok with
        | none =>
          simp [step, stepMsg, hgc, hcr, handlePairClaim, hrole, ht,
            isPairSuccessOut]
        | some info =>
          by_cases hrm : info.roomId = r
          · exfalso
            have hok : claimOk st uid tok = true := by
              simp [claimOk, hgc, hcr, ht, hrole, hrm]
            rw [hok] at h
            cases h
          · simp [step, stepMsg, hgc, hcr, handlePairClaim, hrole, ht, hrm,
              isPairSuccessOut]
      · simp [step, stepMsg, hgc, hcr, handlePairClaim, hrole]

/-- C4: (1) single use — along any execution trace in which the token
string is minted by at most one `pair.create` and is initially absent from
the table, at most one `pair.success` referencing it is ever emitted;
(2) binding — a claim succeeds only for a mobile-role caller whose current
room equals the token's room, and a successful claim deletes the token,
sets the caller's `pairedToUserId` to the token's `webUserId`, and emits
the success to the caller; (3) a claim that fails the binding emits no
`pair.success`. -/
theorem C4_pair_token_single_use :
    (∀ (st : ServerState) (tr : List Event) (tok : String),
      alGet st.pairTokens tok = none → createsFor tr tok ≤ 1 →
      successesFor st tr tok ≤ 1)
    ∧ (∀ (st : ServerState) (uid tok : String) (now : Int) (freshId : String),
      claimOk st uid tok = true →
      ∃ c r info, getClient st uid = some c ∧ c.role = Role.mobile
        ∧ c.roomId = some r ∧ alGet st.pairTokens tok = some info
        ∧ info.roomId = r
        ∧ alGet (step st (Event.msg uid now freshId
            (ClientMsg.pairClaim tok))).1.pairTokens tok = none
        ∧ getClient (step st (Event.msg uid now freshId
            (ClientMsg.pairClaim tok))).1 uid =
          some { c with pairedToUserId := some info.webUserId }
        ∧ Output.send uid (OutMsg.pairSuccess r uid info.webUserId) ∈
          (step st (Event.msg uid now freshId (ClientMsg.pairClaim tok))).2)
    ∧ (∀ (st : ServerState) (uid tok : String) (now : Int) (freshId : String),
      claimOk st uid tok = false →
      ∀ out ∈ (step st (Event.msg uid now freshId (ClientMsg.pairClaim tok))).2,
        isPairSuccessOut out = false) := by
  refine ⟨?_, ?_, ?_⟩
  · intro st tr tok h0 hc
    have hle := successesFor_le tok tr st
    have hz : tokInd st tok = 0 := by simp [tokInd, h0]
    omega
  · intro st uid tok now freshId h
    exact step_pairClaim_success_full now freshId h
  · intro st uid tok now freshId h
    exact step_pairClaim_fail_outputs h

/-- C4 witness fixture room with a web and a mobile client. -/
def roomC4 : Room := ⟨"r1", ["W", "M"], [], [], [], []⟩

/-- C4 witness fixture state. -/
def stC4 : ServerState :=
  ⟨[("r1", roomC4)], [],
   [⟨"W", some "r1", Role.web, none⟩, ⟨"M", some "r1", Role.mobile, none⟩], []⟩

/-- C4 witness trace: one create minting `TK`, then two claims of it. -/
def trC4 : List Event :=
  [Event.msg "W" 0 "TK" ClientMsg.pairCreate,
   Event.msg "M" 1 "x" (ClientMsg.pairClaim "TK"),
   Event.msg "M" 2 "y" (ClientMsg.pairClaim "TK")]

/-- C4 witness fixture: the state right after the create. -/
def stC4b : ServerState := (step stC4 (Event.msg "W" 0 "TK" ClientMsg.pairCreate)).1

/-- C4 witness: the three parts applied at concrete inputs. -/
theorem C4_witness :
    successesFor stC4 trC4 "TK" ≤ 1
    ∧ (∃ c r info, getClient stC4b "M" = some c ∧ c.role = Role.mobile
        ∧ c.roomId = some r ∧ alGet stC4b.pairTokens "TK" = some info
        ∧ info.roomId = r
        ∧ alGet (step stC4b (Event.msg "M" 1 "x"
            (ClientMsg.pairClaim "TK"))).1.pairTokens "TK" = none
        ∧ getClient (step stC4b (Event.msg "M" 1 "x"
            (ClientMsg.pairClaim "TK"))).1 "M" =
          some { c with pairedToUserId := some info.webUserId }
        ∧ Output.send "M" (OutMsg.pairSuccess r "M" info.webUserId) ∈
          (step stC4b (Event.msg "M" 1 "x" (ClientMsg.pairClaim "TK"))).2)
    ∧ (∀ out ∈ (step stC4 (Event.msg "M" 5 "z" (ClientMsg.pairClaim "TK"))).2,
        isPairSuccessOut out = false) :=
  ⟨C4_pair_token_single_use.1 stC4 trC4 "TK" (by decide) (by decide),
   C4_pair_token_single_use.2.1 stC4b "M" "TK" 1 "x" (by decide),
   C4_pair_token_single_use.2.2 stC4 "M" "TK" 5 "z" (by decide)⟩

/-- C10 witness fixture: the sole occupant's in-memory room, with live
strokes, stacks and chat that differ from the persisted snapshot. -/
def roomC10 : Room :=
  ⟨"R", ["X"], [("old", ⟨"old", penStyle, [], "X"⟩)], [("X", ["old"])], [],
   [⟨"id1", "X", none, "hi", 5, none⟩]⟩

/-- C10 witness fixture state: the disk snapshot holds one good stroke and
one with a falsy strokeId. -/
def stC10 : ServerState :=
  ⟨[("R", roomC10)], [], [⟨"X", some "R", Role.web, none⟩],
   [("R", [⟨"d1", penStyle, [], "Y"⟩, ⟨"", penStyle, [], "Z"⟩])]⟩

/-- C10 witness: the self-rejoin theorem applied at `stC10`. -/
theorem C10_witness :
    ∃ room', alGet (step stC10 (Event.msg "X" 0 "f"
        (ClientMsg.joinRoom "R"))).1.rooms "R" = some room'
      ∧ room'.clients = ["X"]
      ∧ room'.strokes = strokesFromDisk ((alGet stC10.disk "R").getD [])
      ∧ room'.chat = []
      ∧ (∀ u, undoView room' u = [] ∧ redoView room' u = []) :=
  C10_self_rejoin_sole_occupant stC10 ⟨"X", some "R", Role.web, none⟩ "X" "R"
    roomC10 0 "f" (by decide) (by decide) (by decide) (by decide) (by decide)

end Inklo
